import Mathlib

/-!
Verification development for the GP2 trace replay core
(`src/developer/tracing/` : tracerunner.cpp, traceparser.cpp,
tracehighlighter.cpp, tracestep.cpp/hpp, graphsnapshot.hpp).

The C++ data model and functions are embedded shallowly: Qt / boost
containers become lists, `QXmlStreamReader` becomes a list of stream
tokens, and each C++ member function becomes a pure function on an
explicit state record.  Names follow the source.
-/

namespace GP2

/-- Step kinds, from `tracestep.hpp` `enum TraceStepType`. -/
inductive TraceStepType
  | RULE
  | RULE_MATCH
  | RULE_MATCH_FAILED
  | RULE_APPLICATION
  | RULE_SET
  | LOOP
  | LOOP_ITERATION
  | PROCEDURE
  | IF_CONTEXT
  | TRY_CONTEXT
  | BRANCH_CONDITION
  | THEN_BRANCH
  | ELSE_BRANCH
  | OR_CONTEXT
  | OR_LEFT
  | OR_RIGHT
  | SKIP
  | BREAK
  | FAIL
  | UNKNOWN
deriving DecidableEq, Repr

/-- Change kinds, from `tracestep.hpp` `enum GraphChangeType`. -/
inductive GraphChangeType
  | MORPHISM
  | ADD_EDGE
  | ADD_NODE
  | DELETE_EDGE
  | DELETE_NODE
  | RELABEL_EDGE
  | RELABEL_NODE
  | REMARK_EDGE
  | REMARK_NODE
  | SET_ROOT
  | REMOVE_ROOT
  | INVALID
deriving DecidableEq, Repr

/-- `label_t` (parsertypes): a mark name and a list of textual atoms. -/
structure label_t where
  mark : String
  values : List String
deriving DecidableEq, Repr

/-- `node_t` (parsertypes): parsed node record.  `xPos`/`yPos` are filled in
by the runner when a `deleteNode` change is applied forward. -/
structure node_t where
  id : String
  label : label_t
  isRoot : Bool
  xPos : Int
  yPos : Int
deriving DecidableEq, Repr

/-- `edge_t` (parsertypes): parsed edge record.  `fromId`/`toId` embed the
C++ fields `from`/`to` (renamed because `from` is reserved in Lean). -/
structure edge_t where
  id : String
  fromId : String
  toId : String
  label : label_t
deriving DecidableEq, Repr

/-- Default-constructed `label_t` (empty QString mark, no atoms). -/
def label_t.empty : label_t := { mark := "", values := [] }

/-- Default-constructed `node_t`. -/
def node_t.empty : node_t :=
  { id := "", label := label_t.empty, isRoot := false, xPos := 0, yPos := 0 }

/-- Default-constructed `edge_t`. -/
def edge_t.empty : edge_t :=
  { id := "", fromId := "", toId := "", label := label_t.empty }

/-- `graph_item_t = boost::variant<edge_t, node_t>` from tracestep.hpp. -/
inductive graph_item_t
  | edge (e : edge_t)
  | node (n : node_t)
deriving DecidableEq, Repr

/-- Extract the node payload of a variant, if it holds one
(`boost::get<node_t>`; the C++ getter throws on a mismatched variant,
the callers below only run it behind an `applicable` hypothesis). -/
def graph_item_t.asNode : graph_item_t → Option node_t
  | .node n => some n
  | .edge _ => none

/-- Extract the edge payload of a variant, if it holds one
(`boost::get<edge_t>`). -/
def graph_item_t.asEdge : graph_item_t → Option edge_t
  | .edge e => some e
  | .node _ => none

/-- `struct GraphChange` from tracestep.hpp. -/
structure GraphChange where
  type : GraphChangeType
  existingItem : graph_item_t
  newItem : graph_item_t
deriving DecidableEq, Repr

/-- `struct SnapshotNode` / `SnapshotEdge` / `GraphSnapshot` from
graphsnapshot.hpp.  Declared in the sources but never read or written by
any function under src; carried on `TraceStep` for structural fidelity. -/
structure GraphSnapshot where
  nodeIds : List String
  edgeIds : List String
deriving DecidableEq, Repr

/-- `struct TraceStep` from tracestep.hpp. -/
structure TraceStep where
  type : TraceStepType
  contextName : String
  endOfContext : Bool
  loopBoundary : Bool
  virtualStep : Bool
  graphChanges : List GraphChange
  snapshot : GraphSnapshot
  hasSnapshot : Bool
deriving DecidableEq, Repr

/-- The field defaults assigned at the top of both `parseStep`
implementations (tracerunner.cpp lines 221-226, traceparser.cpp lines
74-79): empty context name, not an end of context, kind UNKNOWN. -/
def defaultTraceStep : TraceStep :=
  { type := TraceStepType.UNKNOWN
  , contextName := ""
  , endOfContext := false
  , loopBoundary := false
  , virtualStep := false
  , graphChanges := []
  , snapshot := { nodeIds := [], edgeIds := [] }
  , hasSnapshot := false }

/-! ## Host graph

Modelled from the spec: the `Graph` class (graph.hpp/graph.cpp) is not
under src; the spec describes it as a mutable graph with operations
`add_node`, `remove_node`, `add_edge`, `remove_edge`, `set_label`,
`set_mark`, `set_root`, lookup by id and enumeration of nodes and edges.
Nodes and edges are kept in lists; id lookup takes the first match and
the setters rewrite every record carrying the id (identical to the C++
pointer update whenever ids are unique, which the spec's CRUD interface
implies). -/

/-- A host-graph node as the runner sees it: id, rendered label string,
mark name, root flag and canvas position. -/
structure GNode where
  id : String
  label : String
  mark : String
  isRoot : Bool
  x : Int
  y : Int
deriving DecidableEq, Repr

/-- A host-graph edge: id, endpoint node ids, label string and mark. -/
structure GEdge where
  id : String
  fromId : String
  toId : String
  label : String
  mark : String
deriving DecidableEq, Repr

/-- The host graph. -/
structure Graph where
  nodes : List GNode
  edges : List GEdge
deriving DecidableEq, Repr

/-- `ListToString` (translate.hpp, not under src) renders a label's atom
list; modelled from the spec's label format: colon-separated atoms. -/
def ListToString (values : List String) : String :=
  String.intercalate ":" values

/-- `Graph::node(id)`: lookup by id (first match). -/
def Graph.node (g : Graph) (id : String) : Option GNode :=
  g.nodes.find? (fun n => n.id == id)

/-- `Graph::addNode`: append a node record. -/
def Graph.addNode (g : Graph) (n : GNode) : Graph :=
  { g with nodes := g.nodes ++ [n] }

/-- `Graph::removeNode(id)`: drop every node carrying the id. -/
def Graph.removeNode (g : Graph) (id : String) : Graph :=
  { g with nodes := g.nodes.filter (fun n => !(n.id == id)) }

/-- `Graph::addEdge`: append an edge record. -/
def Graph.addEdge (g : Graph) (e : GEdge) : Graph :=
  { g with edges := g.edges ++ [e] }

/-- `Graph::removeEdge(id)`: drop every edge carrying the id. -/
def Graph.removeEdge (g : Graph) (id : String) : Graph :=
  { g with edges := g.edges.filter (fun e => !(e.id == id)) }

/-- `Node::setLabel` reached through `Graph::node(id)`. -/
def Graph.setNodeLabel (g : Graph) (id s : String) : Graph :=
  { g with nodes := g.nodes.map (fun n => if n.id == id then { n with label := s } else n) }

/-- `Node::setMark` reached through `Graph::node(id)`. -/
def Graph.setNodeMark (g : Graph) (id s : String) : Graph :=
  { g with nodes := g.nodes.map (fun n => if n.id == id then { n with mark := s } else n) }

/-- `Node::setIsRoot` reached through `Graph::node(id)`. -/
def Graph.setNodeRoot (g : Graph) (id : String) (b : Bool) : Graph :=
  { g with nodes := g.nodes.map (fun n => if n.id == id then { n with isRoot := b } else n) }

/-- `Edge::setLabel` reached through `Graph::edge(id)`. -/
def Graph.setEdgeLabel (g : Graph) (id s : String) : Graph :=
  { g with edges := g.edges.map (fun e => if e.id == id then { e with label := s } else e) }

/-- `Edge::setMark` reached through `Graph::edge(id)`. -/
def Graph.setEdgeMark (g : Graph) (id s : String) : Graph :=
  { g with edges := g.edges.map (fun e => if e.id == id then { e with mark := s } else e) }

/-! ## Graph-change application and reversal

`TraceRunner::applyCurrentStepChanges` (tracerunner.cpp 899-1045) and
`TraceRunner::revertCurrentStepChanges` (tracerunner.cpp 1050-1200),
case by case.  Applying a `DELETE_NODE` change mutates the change in
place (the node's canvas position is captured before deletion), so the
forward direction returns the updated change alongside the graph. -/

/-- One iteration of the forward loop of `applyCurrentStepChanges`:
apply a single `GraphChange`, returning the new graph and the (possibly
position-patched) change.  Variant mismatches and unrecognised change
kinds fall through to the `default:` logging branch, which skips the
change. -/
def applyGraphChange (g : Graph) (c : GraphChange) : Graph × GraphChange :=
  match c.type with
  | GraphChangeType.ADD_EDGE =>
    match c.newItem.asEdge with
    | some e => (g.addEdge { id := e.id, fromId := e.fromId, toId := e.toId
                           , label := ListToString e.label.values, mark := e.label.mark }, c)
    | none => (g, c)
  | GraphChangeType.ADD_NODE =>
    match c.newItem.asNode with
    | some n => (g.addNode { id := n.id, label := ListToString n.label.values
                           , mark := n.label.mark, isRoot := n.isRoot, x := 0, y := 0 }, c)
    | none => (g, c)
  | GraphChangeType.DELETE_EDGE =>
    match c.existingItem.asEdge with
    | some e => (g.removeEdge e.id, c)
    | none => (g, c)
  | GraphChangeType.DELETE_NODE =>
    match c.existingItem.asNode with
    | some n =>
      match g.node n.id with
      | some gn =>
        let n' : node_t := { n with xPos := gn.x, yPos := gn.y }
        (g.removeNode n.id, { c with existingItem := graph_item_t.node n' })
      | none => (g.removeNode n.id, c)
    | none => (g, c)
  | GraphChangeType.RELABEL_EDGE =>
    match c.newItem.asEdge with
    | some e => (g.setEdgeLabel e.id (ListToString e.label.values), c)
    | none => (g, c)
  | GraphChangeType.RELABEL_NODE =>
    match c.newItem.asNode with
    | some n => (g.setNodeLabel n.id (ListToString n.label.values), c)
    | none => (g, c)
  | GraphChangeType.REMARK_EDGE =>
    match c.newItem.asEdge with
    | some e => (g.setEdgeMark e.id e.label.mark, c)
    | none => (g, c)
  | GraphChangeType.REMARK_NODE =>
    match c.newItem.asNode with
    | some n => (g.setNodeMark n.id n.label.mark, c)
    | none => (g, c)
  | GraphChangeType.SET_ROOT =>
    match c.newItem.asNode with
    | some n => (g.setNodeRoot n.id true, c)
    | none => (g, c)
  | GraphChangeType.REMOVE_ROOT =>
    match c.newItem.asNode with
    | some n => (g.setNodeRoot n.id false, c)
    | none => (g, c)
  | _ => (g, c)

/-- One iteration of the backward loop of `revertCurrentStepChanges`:
undo a single `GraphChange`. -/
def revertGraphChange (g : Graph) (c : GraphChange) : Graph :=
  match c.type with
  | GraphChangeType.ADD_EDGE =>
    match c.newItem.asEdge with
    | some e => g.removeEdge e.id
    | none => g
  | GraphChangeType.ADD_NODE =>
    match c.newItem.asNode with
    | some n => g.removeNode n.id
    | none => g
  | GraphChangeType.DELETE_EDGE =>
    match c.existingItem.asEdge with
    | some e => g.addEdge { id := e.id, fromId := e.fromId, toId := e.toId
                          , label := ListToString e.label.values, mark := e.label.mark }
    | none => g
  | GraphChangeType.DELETE_NODE =>
    match c.existingItem.asNode with
    | some n => g.addNode { id := n.id, label := ListToString n.label.values
                          , mark := n.label.mark, isRoot := n.isRoot, x := n.xPos, y := n.yPos }
    | none => g
  | GraphChangeType.RELABEL_EDGE =>
    match c.existingItem.asEdge with
    | some e => g.setEdgeLabel e.id (ListToString e.label.values)
    | none => g
  | GraphChangeType.RELABEL_NODE =>
    match c.existingItem.asNode with
    | some n => g.setNodeLabel n.id (ListToString n.label.values)
    | none => g
  | GraphChangeType.REMARK_EDGE =>
    match c.existingItem.asEdge with
    | some e => g.setEdgeMark e.id e.label.mark
    | none => g
  | GraphChangeType.REMARK_NODE =>
    match c.existingItem.asNode with
    | some n => g.setNodeMark n.id n.label.mark
    | none => g
  | GraphChangeType.SET_ROOT =>
    match c.newItem.asNode with
    | some n => g.setNodeRoot n.id false
    | none => g
  | GraphChangeType.REMOVE_ROOT =>
    match c.newItem.asNode with
    | some n => g.setNodeRoot n.id true
    | none => g
  | _ => g

/-- The forward loop of `applyCurrentStepChanges`: apply each change in
order, collecting the updated change records. -/
def applyGraphChanges (g : Graph) : List GraphChange → Graph × List GraphChange
  | [] => (g, [])
  | c :: rest =>
    let p := applyGraphChange g c
    let q := applyGraphChanges p.1 rest
    (q.1, p.2 :: q.2)

/-- The backward loop of `revertCurrentStepChanges`: iterate the change
vector in reverse, undoing each change. -/
def revertGraphChanges (g : Graph) : List GraphChange → Graph
  | [] => g
  | c :: rest => revertGraphChange (revertGraphChanges g rest) c

/-! Applicability: the well-formedness of a change with respect to the
graph it is applied to.  This is exactly the precondition under which
the C++ forward/backward pair is a round trip: created ids are fresh and
the `existing`/`old` data stored in the tracefile agrees with the graph
(true of every tracefile recorded from an actual GP2 execution). -/

/-- Decidable applicability of one change to a graph. -/
def applicableChange (g : Graph) (c : GraphChange) : Bool :=
  match c.type with
  | GraphChangeType.ADD_EDGE =>
    match c.newItem.asEdge with
    | some e => g.edges.all (fun ge => !(ge.id == e.id))
    | none => false
  | GraphChangeType.ADD_NODE =>
    match c.newItem.asNode with
    | some n => g.nodes.all (fun gn => !(gn.id == n.id))
    | none => false
  | GraphChangeType.DELETE_EDGE =>
    match c.existingItem.asEdge with
    | some e =>
      g.edges.filter (fun ge => ge.id == e.id) ==
        [{ id := e.id, fromId := e.fromId, toId := e.toId
         , label := ListToString e.label.values, mark := e.label.mark }]
    | none => false
  | GraphChangeType.DELETE_NODE =>
    match c.existingItem.asNode with
    | some n =>
      match g.nodes.filter (fun gn => gn.id == n.id) with
      | [m] => m.label == ListToString n.label.values && m.mark == n.label.mark
                 && m.isRoot == n.isRoot
      | _ => false
    | none => false
  | GraphChangeType.RELABEL_EDGE =>
    match c.existingItem.asEdge, c.newItem.asEdge with
    | some old, some e =>
      e.id == old.id && (g.edges.filter (fun ge => ge.id == e.id)).length ≥ 1 &&
        g.edges.all (fun ge => !(ge.id == e.id) || ge.label == ListToString old.label.values)
    | _, _ => false
  | GraphChangeType.RELABEL_NODE =>
    match c.existingItem.asNode, c.newItem.asNode with
    | some old, some n =>
      n.id == old.id && (g.nodes.filter (fun gn => gn.id == n.id)).length ≥ 1 &&
        g.nodes.all (fun gn => !(gn.id == n.id) || gn.label == ListToString old.label.values)
    | _, _ => false
  | GraphChangeType.REMARK_EDGE =>
    match c.existingItem.asEdge, c.newItem.asEdge with
    | some old, some e =>
      e.id == old.id && (g.edges.filter (fun ge => ge.id == e.id)).length ≥ 1 &&
        g.edges.all (fun ge => !(ge.id == e.id) || ge.mark == old.label.mark)
    | _, _ => false
  | GraphChangeType.REMARK_NODE =>
    match c.existingItem.asNode, c.newItem.asNode with
    | some old, some n =>
      n.id == old.id && (g.nodes.filter (fun gn => gn.id == n.id)).length ≥ 1 &&
        g.nodes.all (fun gn => !(gn.id == n.id) || gn.mark == old.label.mark)
    | _, _ => false
  | GraphChangeType.SET_ROOT =>
    match c.newItem.asNode with
    | some n => g.nodes.all (fun gn => !(gn.id == n.id) || gn.isRoot == false)
    | none => false
  | GraphChangeType.REMOVE_ROOT =>
    match c.newItem.asNode with
    | some n => g.nodes.all (fun gn => !(gn.id == n.id) || gn.isRoot == true)
    | none => false
  | _ => true

/-- Applicability of a change list: each change applicable to the graph
produced by its predecessors. -/
def applicableChanges (g : Graph) : List GraphChange → Bool
  | [] => true
  | c :: rest => applicableChange g c && applicableChanges (applyGraphChange g c).1 rest

/-- Structural graph equality as the spec states it: the same set of
node records and the same set of edge records. -/
def GraphPerm (g g' : Graph) : Prop :=
  g.nodes.Perm g'.nodes ∧ g.edges.Perm g'.edges

/-! ## TraceRunner stepping state

tracerunner.cpp.  The state below is the runner once every step of the
tracefile has been parsed into `_traceSteps` (`_parseComplete = true`).
The runner's lazy parse drain in `stepForward` (lines 136-142) commutes
with stepping: `parseStep` reads and writes only the XML reader and the
step buffer's tail, never the graph, the cursor or the context stack, so
parsing all steps up front yields the same stepping behaviour.  With
`_parseComplete = true`, `isForwardStepAvailable` (line 89) reduces to
`_currentStep < _traceSteps.size()`. -/

/-- The stepping state of `TraceRunner`: step buffer, cursor (index of
the next step to apply on a forward move), context stack, host graph. -/
structure RunnerState where
  traceSteps : List TraceStep
  currentStep : Nat
  contextStack : List TraceStepType
  graph : Graph
deriving DecidableEq, Repr

/-- `TraceRunner::isForwardStepAvailable` for the parse-complete runner. -/
def TraceRunner.isForwardStepAvailable (s : RunnerState) : Bool :=
  !(decide (s.currentStep ≥ s.traceSteps.length))

/-- `TraceRunner::isBackwardStepAvailable` (tracerunner.cpp 92-100). -/
def TraceRunner.isBackwardStepAvailable (s : RunnerState) : Bool :=
  decide (0 < s.currentStep)

/-- `TraceRunner::applyCurrentStepChanges` (tracerunner.cpp 899-1045):
if the current step is a rule application, apply its changes in order
and store the position-patched change records back into the step;
otherwise return with no effect (the guard at line 907). -/
def TraceRunner.applyCurrentStepChanges (s : RunnerState) : RunnerState :=
  match s.traceSteps[s.currentStep]? with
  | none => s
  | some step =>
    if step.type = TraceStepType.RULE_APPLICATION then
      let p := applyGraphChanges s.graph step.graphChanges
      { s with graph := p.1
             , traceSteps := s.traceSteps.set s.currentStep { step with graphChanges := p.2 } }
    else s

/-- `TraceRunner::revertCurrentStepChanges` (tracerunner.cpp 1050-1200):
if the current step is a rule application, undo its changes in reverse
order; otherwise return with no effect (the guard at line 1057). -/
def TraceRunner.revertCurrentStepChanges (s : RunnerState) : RunnerState :=
  match s.traceSteps[s.currentStep]? with
  | none => s
  | some step =>
    if step.type = TraceStepType.RULE_APPLICATION then
      { s with graph := revertGraphChanges s.graph step.graphChanges }
    else s

/-- `TraceRunner::stepForward` (tracerunner.cpp 116-150), state part:
dispatch on the current step (apply changes / `exitContext` pop /
`enterContext` push, lines 120-129), then advance the cursor.  The
out-of-range case is the failed `Q_ASSERT` at line 118: the C++ would
read out of bounds, the embedding leaves the state unchanged. -/
def TraceRunner.stepForwardState (s : RunnerState) : RunnerState :=
  match s.traceSteps[s.currentStep]? with
  | none => s
  | some step =>
    if step.type = TraceStepType.RULE_APPLICATION then
      let s1 := TraceRunner.applyCurrentStepChanges s
      { s1 with currentStep := s1.currentStep + 1 }
    else if step.endOfContext then
      { s with contextStack := s.contextStack.tail, currentStep := s.currentStep + 1 }
    else
      { s with contextStack := step.type :: s.contextStack, currentStep := s.currentStep + 1 }

/-- `TraceRunner::stepBackward` (tracerunner.cpp 152-180), state part:
move the cursor back, then dispatch on the step just stepped over
(revert changes / `enterContext` push for an end step / `exitContext`
pop otherwise, lines 161-170). -/
def TraceRunner.stepBackwardState (s : RunnerState) : RunnerState :=
  let s0 : RunnerState := { s with currentStep := s.currentStep - 1 }
  match s0.traceSteps[s0.currentStep]? with
  | none => s0
  | some step =>
    if step.type = TraceStepType.RULE_APPLICATION then
      TraceRunner.revertCurrentStepChanges s0
    else if step.endOfContext then
      { s0 with contextStack := step.type :: s0.contextStack }
    else
      { s0 with contextStack := s0.contextStack.tail }

/-- A fault raised by a `Q_ASSERT` sanity check (aborts a debug build;
undefined out-of-bounds access in a release build). -/
inductive RunnerFault
  | assertionFailure
deriving DecidableEq, Repr

/-- `TraceRunner::stepForward` with its entry assertion (line 118)
modelled: when no forward step is available the call faults instead of
returning.  On success the C++ returns `true`. -/
def TraceRunner.stepForwardChecked (s : RunnerState) :
    Except RunnerFault (RunnerState × Bool) :=
  if TraceRunner.isForwardStepAvailable s then
    Except.ok (TraceRunner.stepForwardState s, true)
  else
    Except.error RunnerFault.assertionFailure

/-- `TraceRunner::stepBackward` with its entry assertion (line 154)
modelled. -/
def TraceRunner.stepBackwardChecked (s : RunnerState) :
    Except RunnerFault (RunnerState × Bool) :=
  if TraceRunner.isBackwardStepAvailable s then
    Except.ok (TraceRunner.stepBackwardState s, true)
  else
    Except.error RunnerFault.assertionFailure

theorem TraceRunner.stepForwardState_traceSteps_length (s : RunnerState) :
    (TraceRunner.stepForwardState s).traceSteps.length = s.traceSteps.length := by
  unfold TraceRunner.stepForwardState TraceRunner.applyCurrentStepChanges
  cases h : s.traceSteps[s.currentStep]? with
  | none => simp
  | some step =>
    by_cases hty : step.type = TraceStepType.RULE_APPLICATION
    · simp [h, hty]
    · by_cases he : step.endOfContext <;> simp [h, hty, he]

theorem TraceRunner.stepForwardState_currentStep (s : RunnerState)
    (h : s.currentStep < s.traceSteps.length) :
    (TraceRunner.stepForwardState s).currentStep = s.currentStep + 1 := by
  unfold TraceRunner.stepForwardState TraceRunner.applyCurrentStepChanges
  cases hg : s.traceSteps[s.currentStep]? with
  | none => simp [List.getElem?_eq_none_iff] at hg; omega
  | some step =>
    by_cases hty : step.type = TraceStepType.RULE_APPLICATION
    · simp [hg, hty]
    · by_cases he : step.endOfContext <;> simp [hg, hty, he]

/-- `TraceRunner::goToEnd` (tracerunner.cpp 183-196): step forward until
no forward step is available.  (In the parse-complete runner
`stepForward` always returns `true`, so the loop runs to the end.) -/
def TraceRunner.goToEnd (s : RunnerState) : RunnerState :=
  if h : s.currentStep < s.traceSteps.length then
    TraceRunner.goToEnd (TraceRunner.stepForwardState s)
  else s
termination_by s.traceSteps.length - s.currentStep
decreasing_by
  rw [TraceRunner.stepForwardState_traceSteps_length,
      TraceRunner.stepForwardState_currentStep s h]
  omega

theorem TraceRunner.stepBackwardState_currentStep (s : RunnerState) :
    (TraceRunner.stepBackwardState s).currentStep = s.currentStep - 1 := by
  unfold TraceRunner.stepBackwardState TraceRunner.revertCurrentStepChanges
  cases hg : s.traceSteps[s.currentStep - 1]? with
  | none => simp [hg]
  | some step =>
    by_cases hty : step.type = TraceStepType.RULE_APPLICATION
    · simp [hg, hty]
    · by_cases he : step.endOfContext <;> simp [hg, hty, he]

/-- `TraceRunner::goToStart` (tracerunner.cpp 199-210): step backward
until no backward step is available (`stepBackward` always returns
`true`, tracerunner.cpp 179). -/
def TraceRunner.goToStart (s : RunnerState) : RunnerState :=
  if h : 0 < s.currentStep then
    TraceRunner.goToStart (TraceRunner.stepBackwardState s)
  else s
termination_by s.currentStep
decreasing_by
  rw [TraceRunner.stepBackwardState_currentStep]
  omega

/-- The state of a freshly constructed parse-complete runner: cursor at
step 0, empty context stack (tracerunner.cpp 15-66). -/
def TraceRunner.initial (steps : List TraceStep) (g : Graph) : RunnerState :=
  { traceSteps := steps, currentStep := 0, contextStack := [], graph := g }

/-- Stepping forward a fixed number of times. -/
def TraceRunner.runForwardN (s : RunnerState) : Nat → RunnerState
  | 0 => s
  | k + 1 => TraceRunner.runForwardN (TraceRunner.stepForwardState s) k

/-- Stepping backward a fixed number of times. -/
def TraceRunner.runBackwardN (s : RunnerState) : Nat → RunnerState
  | 0 => s
  | k + 1 => TraceRunner.runBackwardN (TraceRunner.stepBackwardState s) k

/-- The valid-trace condition for a run of `k` forward steps: every rule
application's change list is applicable to the graph it is applied to
(rule applications recorded in a tracefile from an actual execution
satisfy this by construction). -/
def TraceRunner.okRun (s : RunnerState) : Nat → Bool
  | 0 => true
  | k + 1 =>
    (match s.traceSteps[s.currentStep]? with
     | some step =>
       if step.type = TraceStepType.RULE_APPLICATION then
         applicableChanges s.graph step.graphChanges
       else true
     | none => true)
    && TraceRunner.okRun (TraceRunner.stepForwardState s) k

/-! ## XML stream model

`QXmlStreamReader` is abstracted as a list of stream tokens; `readNext`
pops the head.  `atEnd` is the empty list, `hasError` is a flag set when
an `Invalid` token is consumed.  An `Invalid` token carries whether the
reader's error is `PrematureEndOfDocumentError`.  Character data,
comments and whitespace are the `other` token (the parsers skip every
token type they do not handle). -/

/-- One token of the XML stream. -/
inductive XmlTok
  | startEl (name : String) (attrs : List (String × String))
  | endEl (name : String)
  | endDoc
  | invalid (premature : Bool)
  | other
deriving DecidableEq, Repr

/-- `QXmlStreamAttributes::value(name)`: the attribute's value, or the
empty string when absent. -/
def attrValue (attrs : List (String × String)) (name : String) : String :=
  ((attrs.find? (fun a => a.1 == name)).map (fun a => a.2)).getD ""

/-- `stepTypeFromXML` (tracestep.cpp 5-27): tag name to step kind, used
by the runner's inline parser.  Its or-branch tags are `left`/`right`. -/
def stepTypeFromXML (elementName : String) : TraceStepType :=
  if elementName == "rule" then TraceStepType.RULE
  else if elementName == "match" then TraceStepType.RULE_MATCH
  else if elementName == "apply" then TraceStepType.RULE_APPLICATION
  else if elementName == "ruleset" then TraceStepType.RULE_SET
  else if elementName == "loop" then TraceStepType.LOOP
  else if elementName == "iteration" then TraceStepType.LOOP_ITERATION
  else if elementName == "procedure" then TraceStepType.PROCEDURE
  else if elementName == "if" then TraceStepType.IF_CONTEXT
  else if elementName == "try" then TraceStepType.TRY_CONTEXT
  else if elementName == "condition" then TraceStepType.BRANCH_CONDITION
  else if elementName == "then" then TraceStepType.THEN_BRANCH
  else if elementName == "else" then TraceStepType.ELSE_BRANCH
  else if elementName == "or" then TraceStepType.OR_CONTEXT
  else if elementName == "left" then TraceStepType.OR_LEFT
  else if elementName == "right" then TraceStepType.OR_RIGHT
  else if elementName == "skip" then TraceStepType.SKIP
  else if elementName == "break" then TraceStepType.BREAK
  else if elementName == "fail" then TraceStepType.FAIL
  else TraceStepType.UNKNOWN

/-- `changeTypeFromXML` (tracestep.cpp 30-43): tag name to change kind,
used by the runner's inline parser.  `removeRoot` is missing from this
table and falls through to `INVALID`. -/
def changeTypeFromXML (elementName : String) : GraphChangeType :=
  if elementName == "createEdge" then GraphChangeType.ADD_EDGE
  else if elementName == "createNode" then GraphChangeType.ADD_NODE
  else if elementName == "deleteEdge" then GraphChangeType.DELETE_EDGE
  else if elementName == "deleteNode" then GraphChangeType.DELETE_NODE
  else if elementName == "relabelEdge" then GraphChangeType.RELABEL_EDGE
  else if elementName == "relabelNode" then GraphChangeType.RELABEL_NODE
  else if elementName == "remarkEdge" then GraphChangeType.REMARK_EDGE
  else if elementName == "remarkNode" then GraphChangeType.REMARK_NODE
  else if elementName == "setRoot" then GraphChangeType.SET_ROOT
  else GraphChangeType.INVALID

/-- `TraceParser::stepTypeFromTagName` (traceparser.cpp 504-525): the
canonical parser's tag table; its or-branch tags are `leftBranch` /
`rightBranch`. -/
def stepTypeFromTagName (tagName : String) : TraceStepType :=
  if tagName == "rule" then TraceStepType.RULE
  else if tagName == "match" then TraceStepType.RULE_MATCH
  else if tagName == "apply" then TraceStepType.RULE_APPLICATION
  else if tagName == "ruleset" then TraceStepType.RULE_SET
  else if tagName == "loop" then TraceStepType.LOOP
  else if tagName == "iteration" then TraceStepType.LOOP_ITERATION
  else if tagName == "procedure" then TraceStepType.PROCEDURE
  else if tagName == "if" then TraceStepType.IF_CONTEXT
  else if tagName == "try" then TraceStepType.TRY_CONTEXT
  else if tagName == "condition" then TraceStepType.BRANCH_CONDITION
  else if tagName == "then" then TraceStepType.THEN_BRANCH
  else if tagName == "else" then TraceStepType.ELSE_BRANCH
  else if tagName == "or" then TraceStepType.OR_CONTEXT
  else if tagName == "leftBranch" then TraceStepType.OR_LEFT
  else if tagName == "rightBranch" then TraceStepType.OR_RIGHT
  else if tagName == "skip" then TraceStepType.SKIP
  else if tagName == "break" then TraceStepType.BREAK
  else if tagName == "fail" then TraceStepType.FAIL
  else TraceStepType.UNKNOWN

/-- `TraceParser::graphChangeTypeFromTagName` (traceparser.cpp 531-544):
the canonical parser's change-tag table (this one knows `removeRoot`). -/
def graphChangeTypeFromTagName (tagName : String) : GraphChangeType :=
  if tagName == "createEdge" then GraphChangeType.ADD_EDGE
  else if tagName == "createNode" then GraphChangeType.ADD_NODE
  else if tagName == "deleteEdge" then GraphChangeType.DELETE_EDGE
  else if tagName == "deleteNode" then GraphChangeType.DELETE_NODE
  else if tagName == "relabelEdge" then GraphChangeType.RELABEL_EDGE
  else if tagName == "relabelNode" then GraphChangeType.RELABEL_NODE
  else if tagName == "remarkEdge" then GraphChangeType.REMARK_EDGE
  else if tagName == "remarkNode" then GraphChangeType.REMARK_NODE
  else if tagName == "setRoot" then GraphChangeType.SET_ROOT
  else if tagName == "removeRoot" then GraphChangeType.REMOVE_ROOT
  else GraphChangeType.INVALID

/-- `QString::split(":")` over the characters of the label text: each
colon separates two atoms, and an empty string yields the single empty
atom (as Qt's split does). -/
def splitColonAux : List Char → List Char → List String
  | [], acc => [String.mk acc]
  | c :: rest, acc =>
    if c = ':' then String.mk acc :: splitColonAux rest []
    else splitColonAux rest (acc ++ [c])

/-- `parseLabel` (tracerunner.cpp 648-668 = traceparser.cpp 478-498):
decode the numeric mark and split the colon-separated atom list. -/
def parseLabel (label mark : String) : label_t :=
  { mark :=
      if mark == "1" then "red"
      else if mark == "2" then "green"
      else if mark == "3" then "blue"
      else if mark == "4" then "dashed"
      else "none"
  , values := splitColonAux label.toList [] }

/-- `parseEdge` (tracerunner.cpp 627-635 = traceparser.cpp 457-465). -/
def parseEdge (attrs : List (String × String)) : edge_t :=
  { id := attrValue attrs "id"
  , fromId := attrValue attrs "source"
  , toId := attrValue attrs "target"
  , label := parseLabel (attrValue attrs "label") (attrValue attrs "mark") }

/-- `parseNode` (tracerunner.cpp 638-645 = traceparser.cpp 468-475). -/
def parseNode (attrs : List (String × String)) : node_t :=
  { id := attrValue attrs "id"
  , isRoot := attrValue attrs "root" == "true"
  , label := parseLabel (attrValue attrs "label") (attrValue attrs "mark")
  , xPos := 0
  , yPos := 0 }

/-- `parseGraphChange` (tracerunner.cpp 509-624 = traceparser.cpp
339-454), parameterised by the tag table because the two copies use
different ones.  `none` is the C++ `return false` (unrecognised change
tag), which makes the caller skip the element. -/
def parseGraphChangeWith (tyOf : String → GraphChangeType)
    (name : String) (attrs : List (String × String)) : Option GraphChange :=
  match tyOf name with
  | GraphChangeType.ADD_EDGE =>
    some { type := GraphChangeType.ADD_EDGE
         , existingItem := graph_item_t.edge edge_t.empty
         , newItem := graph_item_t.edge (parseEdge attrs) }
  | GraphChangeType.ADD_NODE =>
    some { type := GraphChangeType.ADD_NODE
         , existingItem := graph_item_t.edge edge_t.empty
         , newItem := graph_item_t.node (parseNode attrs) }
  | GraphChangeType.DELETE_EDGE =>
    some { type := GraphChangeType.DELETE_EDGE
         , existingItem := graph_item_t.edge (parseEdge attrs)
         , newItem := graph_item_t.edge edge_t.empty }
  | GraphChangeType.DELETE_NODE =>
    some { type := GraphChangeType.DELETE_NODE
         , existingItem := graph_item_t.node (parseNode attrs)
         , newItem := graph_item_t.edge edge_t.empty }
  | GraphChangeType.RELABEL_EDGE =>
    let oldEdge : edge_t :=
      { edge_t.empty with id := attrValue attrs "id",
                          label := parseLabel (attrValue attrs "old") "" }
    let newEdge : edge_t :=
      { edge_t.empty with id := oldEdge.id,
                          label := parseLabel (attrValue attrs "new") "" }
    some { type := GraphChangeType.RELABEL_EDGE
         , existingItem := graph_item_t.edge oldEdge
         , newItem := graph_item_t.edge newEdge }
  | GraphChangeType.RELABEL_NODE =>
    let oldNode : node_t :=
      { node_t.empty with id := attrValue attrs "id",
                          label := parseLabel (attrValue attrs "old") "" }
    let newNode : node_t :=
      { node_t.empty with id := oldNode.id,
                          label := parseLabel (attrValue attrs "new") "" }
    some { type := GraphChangeType.RELABEL_NODE
         , existingItem := graph_item_t.node oldNode
         , newItem := graph_item_t.node newNode }
  | GraphChangeType.REMARK_EDGE =>
    let oldEdge : edge_t :=
      { edge_t.empty with id := attrValue attrs "id",
                          label := parseLabel "" (attrValue attrs "old") }
    let newEdge : edge_t :=
      { edge_t.empty with id := oldEdge.id,
                          label := parseLabel "" (attrValue attrs "new") }
    some { type := GraphChangeType.REMARK_EDGE
         , existingItem := graph_item_t.edge oldEdge
         , newItem := graph_item_t.edge newEdge }
  | GraphChangeType.REMARK_NODE =>
    let oldNode : node_t :=
      { node_t.empty with id := attrValue attrs "id",
                          label := parseLabel "" (attrValue attrs "old") }
    let newNode : node_t :=
      { node_t.empty with id := oldNode.id,
                          label := parseLabel "" (attrValue attrs "new") }
    some { type := GraphChangeType.REMARK_NODE
         , existingItem := graph_item_t.node oldNode
         , newItem := graph_item_t.node newNode }
  | GraphChangeType.SET_ROOT =>
    let oldNode : node_t := { node_t.empty with id := attrValue attrs "id", isRoot := false }
    let newNode : node_t := { node_t.empty with id := oldNode.id, isRoot := true }
    some { type := GraphChangeType.SET_ROOT
         , existingItem := graph_item_t.node oldNode
         , newItem := graph_item_t.node newNode }
  | GraphChangeType.REMOVE_ROOT =>
    let oldNode : node_t := { node_t.empty with id := attrValue attrs "id", isRoot := true }
    let newNode : node_t := { node_t.empty with id := oldNode.id, isRoot := false }
    some { type := GraphChangeType.REMOVE_ROOT
         , existingItem := graph_item_t.node oldNode
         , newItem := graph_item_t.node newNode }
  | _ => none

/-- Lines 391-396 of tracerunner.cpp (= 168-173 of traceparser.cpp):
the step kind computed for a `<match>` start element.  The first
assignment selects on the `success` attribute; the next statement then
assigns `RULE_MATCH` unconditionally, so the selected value is dead. -/
def matchStepType (success : String) : TraceStepType :=
  let _fromSuccessAttr : TraceStepType :=
    if success == "true" then TraceStepType.RULE_MATCH else TraceStepType.RULE_MATCH_FAILED
  TraceStepType.RULE_MATCH

/-- The inner `<match>` scan loop (tracerunner.cpp 397-448 = traceparser.cpp
174-225): consume stream tokens until `</match>`, turning each `<node>`
or `<edge>` start element into a `MORPHISM` change.  `none` is the C++
`return false` on an invalid token (including running off the stream). -/
def matchScan : List XmlTok → List GraphChange → Option (List XmlTok × List GraphChange)
  | [], _ => none
  | t :: rest, acc =>
    match t with
    | XmlTok.invalid _ => none
    | XmlTok.endEl n => if n == "match" then some (rest, acc) else matchScan rest acc
    | XmlTok.startEl n attrs =>
      if n == "node" then
        matchScan rest (acc ++
          [{ type := GraphChangeType.MORPHISM
           , existingItem := graph_item_t.node { node_t.empty with id := attrValue attrs "id" }
           , newItem := graph_item_t.edge edge_t.empty }])
      else if n == "edge" then
        matchScan rest (acc ++
          [{ type := GraphChangeType.MORPHISM
           , existingItem := graph_item_t.edge { edge_t.empty with id := attrValue attrs "id" }
           , newItem := graph_item_t.edge edge_t.empty }])
      else matchScan rest acc
    | _ => matchScan rest acc

/-- The inner `<apply>` scan loop (tracerunner.cpp 457-482 = traceparser.cpp
234-259): consume stream tokens until `</apply>`, collecting one change
per recognised start element (an unrecognised change tag is skipped). -/
def applyScan (tyOf : String → GraphChangeType) :
    List XmlTok → List GraphChange → Option (List XmlTok × List GraphChange)
  | [], _ => none
  | t :: rest, acc =>
    match t with
    | XmlTok.invalid _ => none
    | XmlTok.endEl n => if n == "apply" then some (rest, acc) else applyScan tyOf rest acc
    | XmlTok.startEl n attrs =>
      match parseGraphChangeWith tyOf n attrs with
      | some c => applyScan tyOf rest (acc ++ [c])
      | none => applyScan tyOf rest acc
    | _ => applyScan tyOf rest acc

/-! ## The runner's inline parser (tracerunner.cpp 213-377) -/

/-- `TraceRunner::parseStartElement` (tracerunner.cpp 384-506): build one
step from a start element.  Returns the step and the remaining stream;
`none` is the C++ `return false` (unknown element, or invalid token
inside a `<match>`/`<apply>` scan). -/
def TraceRunner.parseStartElement (name : String) (attrs : List (String × String))
    (rest : List XmlTok) : Option (TraceStep × List XmlTok) :=
  match stepTypeFromXML name with
  | TraceStepType.RULE_MATCH =>
    match matchScan rest [] with
    | some (rest', chs) =>
      some ({ defaultTraceStep with
                type := matchStepType (attrValue attrs "success"),
                graphChanges := chs }, rest')
    | none => none
  | TraceStepType.RULE_APPLICATION =>
    match applyScan changeTypeFromXML rest [] with
    | some (rest', chs) =>
      some ({ defaultTraceStep with
                type := TraceStepType.RULE_APPLICATION,
                graphChanges := chs }, rest')
    | none => none
  | TraceStepType.UNKNOWN => none
  | ty =>
    some ({ defaultTraceStep with type := ty, contextName := attrValue attrs "name" }, rest)

/-- The backward search at the end of a `</rule>` (tracerunner.cpp
279-287): the context name of the most recently buffered RULE step. -/
def ruleNameLookup (steps : List TraceStep) : String :=
  ((steps.reverse.find? (fun st => st.type == TraceStepType.RULE)).map
    (fun st => st.contextName)).getD ""

/-- The nesting-aware backward search at the end of a `</procedure>`
(tracerunner.cpp 306-323), over the reversed step buffer. -/
def procNameLookup : List TraceStep → Nat → String
  | [], _ => ""
  | st :: rest, nested =>
    if st.type == TraceStepType.PROCEDURE then
      if st.endOfContext then procNameLookup rest (nested + 1)
      else if 0 < nested then procNameLookup rest (nested - 1)
      else st.contextName
    else procNameLookup rest nested

/-- Parse state of the runner's inline parser: the stream, the reader's
error flag, `_parseComplete`, and the runner's `_traceSteps` buffer
(which this `parseStep` reads for context names and appends to). -/
structure RParseState where
  toks : List XmlTok
  errored : Bool
  parseComplete : Bool
  traceSteps : List TraceStep
deriving DecidableEq, Repr

/-- The `while (true)` loop body of `TraceRunner::parseStep`
(tracerunner.cpp 213-377), recursing on the remaining stream.  Arguments
mirror the state read by the loop: the stream, the reader's error flag,
`_parseComplete` and the `_traceSteps` buffer. -/
def TraceRunner.parseStepAux :
    List XmlTok → Bool → Bool → List TraceStep → RParseState × Bool
  | [], errored, _complete, steps =>
    ({ toks := [], errored := errored, parseComplete := true, traceSteps := steps }, true)
  | t :: rest, errored, complete, steps =>
    if errored then
      ({ toks := t :: rest, errored := errored, parseComplete := complete
       , traceSteps := steps }, false)
    else
      match t with
      | XmlTok.startEl name attrs =>
        match TraceRunner.parseStartElement name attrs rest with
        | some (step, rest') =>
          let steps' := steps ++ [step] ++
            (if step.type = TraceStepType.RULE_MATCH ∨
                step.type = TraceStepType.RULE_MATCH_FAILED then
              [{ defaultTraceStep with type := step.type, endOfContext := true }]
            else [])
          ({ toks := rest', errored := errored, parseComplete := complete
           , traceSteps := steps' }, true)
        | none =>
          ({ toks := rest, errored := errored, parseComplete := complete
           , traceSteps := steps }, false)
      | XmlTok.endEl name =>
        let ty := stepTypeFromXML name
        if ty = TraceStepType.SKIP ∨ ty = TraceStepType.BREAK ∨
           ty = TraceStepType.FAIL ∨ ty = TraceStepType.UNKNOWN then
          TraceRunner.parseStepAux rest errored complete steps
        else
          let nm :=
            if ty = TraceStepType.RULE then ruleNameLookup steps
            else if ty = TraceStepType.PROCEDURE then procNameLookup steps.reverse 0
            else ""
          ({ toks := rest, errored := errored, parseComplete := complete
           , traceSteps := steps ++
               [{ defaultTraceStep with
                    type := ty, endOfContext := true, contextName := nm }] }, true)
      | XmlTok.endDoc =>
        ({ toks := rest, errored := errored, parseComplete := true
         , traceSteps := steps }, true)
      | XmlTok.invalid premature =>
        if premature then
          ({ toks := rest, errored := true, parseComplete := true
           , traceSteps := steps }, true)
        else
          ({ toks := rest, errored := true, parseComplete := complete
           , traceSteps := steps }, false)
      | XmlTok.other => TraceRunner.parseStepAux rest errored complete steps

/-- `TraceRunner::parseStep` (tracerunner.cpp 213-377).  Returns the new
state and the C++ boolean result.  Notably, after buffering a match step
it appends a second, synthetic end-of-context match step (lines
365-373).  On a failed start element the stream position is
approximated by the unscanned remainder (the C++ reader stops wherever
the failure occurred; nothing reads the stream after a failure). -/
def TraceRunner.parseStep (p : RParseState) : RParseState × Bool :=
  TraceRunner.parseStepAux p.toks p.errored p.parseComplete p.traceSteps

/-- Drive the runner's `parseStep` until `_parseComplete` (the eager
version of the constructor's first parse plus the lazy drain in
`stepForward`); the fuel only bounds the loop, one token is consumed per
productive iteration. -/
def TraceRunner.parseAll : Nat → RParseState → RParseState × Bool
  | 0, p => (p, true)
  | fuel + 1, p =>
    if p.parseComplete then (p, true)
    else
      let q := TraceRunner.parseStep p
      if q.2 then TraceRunner.parseAll fuel q.1 else (q.1, false)

/-- The full pipeline: parse a stream (already past the root `<trace>`
start element, which the constructor consumes at tracerunner.cpp 38-44)
and construct the parse-complete runner over graph `g`. -/
def TraceRunner.pipeline (toks : List XmlTok) (g : Graph) : RunnerState :=
  TraceRunner.initial (TraceRunner.parseAll (toks.length + 2)
    { toks := toks, errored := false, parseComplete := false, traceSteps := [] }).1.traceSteps g

/-! ## The canonical standalone parser (traceparser.cpp) -/

/-- Parse state of `TraceParser`: the stream, the reader's error flag,
`_parseComplete`, and `_unmatchedContextNames`. -/
structure PParseState where
  toks : List XmlTok
  errored : Bool
  parseComplete : Bool
  unmatchedContextNames : List String
deriving DecidableEq, Repr

/-- `TraceParser::parseStartElement` (traceparser.cpp 161-287).  Like
the runner's, but only rules and procedures record a context name, and
their names are pushed on `_unmatchedContextNames`. -/
def TraceParser.parseStartElement (name : String) (attrs : List (String × String))
    (rest : List XmlTok) (stack : List String) :
    Option (TraceStep × List XmlTok × List String) :=
  match stepTypeFromTagName name with
  | TraceStepType.RULE_MATCH =>
    match matchScan rest [] with
    | some (rest', chs) =>
      some ({ defaultTraceStep with
                type := matchStepType (attrValue attrs "success"),
                graphChanges := chs }, rest', stack)
    | none => none
  | TraceStepType.RULE_APPLICATION =>
    match applyScan graphChangeTypeFromTagName rest [] with
    | some (rest', chs) =>
      some ({ defaultTraceStep with
                type := TraceStepType.RULE_APPLICATION,
                graphChanges := chs }, rest', stack)
    | none => none
  | TraceStepType.UNKNOWN => none
  | ty =>
    if ty = TraceStepType.RULE ∨ ty = TraceStepType.PROCEDURE then
      let nm := attrValue attrs "name"
      some ({ defaultTraceStep with type := ty, contextName := nm }, rest, nm :: stack)
    else
      some ({ defaultTraceStep with type := ty }, rest, stack)

/-- `TraceParser::parseEndElement` (traceparser.cpp 294-332): `</trace>`
completes the parse with no step; leaf and unknown end tags produce no
step; context end tags produce an end-of-context step, popping the
unmatched-name stack for rules and procedures. -/
def TraceParser.parseEndElement (name : String) (stack : List String) :
    Option TraceStep × Bool × List String :=
  if name == "trace" then (none, true, stack)
  else
    let ty := stepTypeFromTagName name
    if ty = TraceStepType.SKIP ∨ ty = TraceStepType.BREAK ∨
       ty = TraceStepType.FAIL ∨ ty = TraceStepType.UNKNOWN then
      (none, false, stack)
    else if ty = TraceStepType.RULE ∨ ty = TraceStepType.PROCEDURE then
      (some { defaultTraceStep with
                type := ty, endOfContext := true,
                contextName := stack.headD "" }, false, stack.tail)
    else
      (some { defaultTraceStep with type := ty, endOfContext := true }, false, stack)

/-- The `while (true)` loop of `TraceParser::parseStep` (traceparser.cpp
73-155), recursing on the remaining stream.  Arguments mirror the state
read by the loop: the stream, the reader's error flag, `_parseComplete`
and `_unmatchedContextNames`. -/
def TraceParser.parseStepAux :
    List XmlTok → Bool → Bool → List String → PParseState × Bool × Option TraceStep
  | toks, errored, complete, stack =>
    if complete then
      ({ toks := toks, errored := errored, parseComplete := complete
       , unmatchedContextNames := stack }, false, none)
    else
      match toks with
      | [] =>
        ({ toks := [], errored := errored, parseComplete := true
         , unmatchedContextNames := stack }, true, none)
      | t :: rest =>
        if errored then
          ({ toks := t :: rest, errored := errored, parseComplete := complete
           , unmatchedContextNames := stack }, false, none)
        else
          match t with
          | XmlTok.startEl name attrs =>
            match TraceParser.parseStartElement name attrs rest stack with
            | some (step, rest', stack') =>
              ({ toks := rest', errored := errored, parseComplete := complete
               , unmatchedContextNames := stack' }, true, some step)
            | none =>
              ({ toks := rest, errored := errored, parseComplete := complete
               , unmatchedContextNames := stack }, false, none)
          | XmlTok.endEl name =>
            match TraceParser.parseEndElement name stack with
            | (some step, comp, stack') =>
              ({ toks := rest, errored := errored, parseComplete := comp
               , unmatchedContextNames := stack' }, true, some step)
            | (none, comp, stack') =>
              TraceParser.parseStepAux rest errored comp stack'
          | XmlTok.endDoc =>
            ({ toks := rest, errored := errored, parseComplete := true
             , unmatchedContextNames := stack }, true, none)
          | XmlTok.invalid premature =>
            if premature then
              ({ toks := rest, errored := true, parseComplete := true
               , unmatchedContextNames := stack }, true, none)
            else
              ({ toks := rest, errored := true, parseComplete := complete
               , unmatchedContextNames := stack }, false, none)
          | XmlTok.other => TraceParser.parseStepAux rest errored complete stack

/-- `TraceParser::parseStep` (traceparser.cpp 73-155).  Result: the new
state, the C++ boolean result, and the produced step if the out
parameter was filled in before a `return true`. -/
def TraceParser.parseStep (p : PParseState) : PParseState × Bool × Option TraceStep :=
  TraceParser.parseStepAux p.toks p.errored p.parseComplete p.unmatchedContextNames

/-! ## TraceHighlighter (tracehighlighter.cpp)

The program tokens are the immutable list of (lexeme, text) pairs; the
mutable `emphasise` flags of the token vector are the list of booleans in
the highlighter state, indexed in parallel.  A `TokenReference` carries
the token pointer (as a vector index, `tok`) and the stored `index`
field; the two can disagree on the sentinel frames the code builds. -/

/-- Program-token lexemes.  Modelled from the spec: programtokens.hpp is
not under src; the spec's token vocabulary names declarations, the
declaration operator `=`, identifiers, braces, parentheses, keywords and
the repeat symbol `!`. -/
inductive ProgramLexeme
  | Declaration
  | DeclarationOperator
  | Identifier
  | OpenBrace
  | CloseBrace
  | OpenParen
  | CloseParen
  | Keyword
  | Repeat
  | OtherLex
deriving DecidableEq, Repr

/-- A source token (token.hpp): lexeme and matched text.  The mutable
`emphasise` flag lives in `HLState.emph`. -/
structure PToken where
  lexeme : ProgramLexeme
  text : String
deriving DecidableEq, Repr

/-- `struct TokenReference` (tracehighlighter.hpp): the `Token*` pointer
(as the token's position in the program-token vector) and the stored
search index. -/
structure TokenReference where
  tok : Nat
  index : Int
deriving DecidableEq, Repr

/-- The highlighter's mutable state: the `emphasise` flags of the token
vector, and `_tokenStack`. -/
structure HLState where
  emph : List Bool
  tokenStack : List TokenReference
deriving DecidableEq, Repr

/-- Write one token's `emphasise` flag (a `token->emphasise = b` through
a pointer into the token vector). -/
def setEmph (l : List Bool) (i : Nat) (b : Bool) : List Bool :=
  l.set i b

/-- `TraceHighlighter::clearHighlights` (tracehighlighter.cpp 774-779)
= `TraceRunner::removeHighlights` (tracerunner.cpp 887-892). -/
def clearHighlights (s : HLState) : HLState :=
  { s with emph := s.emph.map (fun _ => false) }

/-- `replaceCurrentHighlight` (tracehighlighter.cpp 785-795 =
tracerunner.cpp 851-861): pop and un-highlight the top frame if there is
one, then highlight and push the new frame. -/
def replaceCurrentHighlight (s : HLState) (newToken : TokenReference) : HLState :=
  let s1 :=
    match s.tokenStack with
    | [] => s
    | top :: rest => { s with emph := setEmph s.emph top.tok false, tokenStack := rest }
  { s1 with emph := setEmph s1.emph newToken.tok true
          , tokenStack := newToken :: s1.tokenStack }

/-- `pushHighlight` (tracehighlighter.cpp 802-811 = tracerunner.cpp
864-873): un-highlight the top frame without popping, then highlight and
push the new frame. -/
def pushHighlight (s : HLState) (newToken : TokenReference) : HLState :=
  let s1 :=
    match s.tokenStack with
    | [] => s
    | top :: _ => { s with emph := setEmph s.emph top.tok false }
  { s1 with emph := setEmph s1.emph newToken.tok true
          , tokenStack := newToken :: s1.tokenStack }

/-- `popHighlight` (tracehighlighter.cpp 818-828 = tracerunner.cpp
876-884): pop and un-highlight the top frame, then re-highlight the new
top if the stack is still non-empty.  (`QStack::pop` on an empty stack
is undefined; the embedding leaves the state unchanged.) -/
def popHighlight (s : HLState) : HLState :=
  match s.tokenStack with
  | [] => s
  | top :: rest =>
    let s1 : HLState := { emph := setEmph s.emph top.tok false, tokenStack := rest }
    match rest with
    | [] => s1
    | t2 :: _ => { s1 with emph := setEmph s1.emph t2.tok true }

/-- Every mutation of the `emphasise` flags performed anywhere in
tracehighlighter.cpp or tracerunner.cpp, as an operation alphabet:
the four primitives above, the null-step repoint of
`TraceHighlighter::update` (lines 106-121: clear all highlights, then
replace the top frame by a sentinel one index further), and the
end-of-trace repoint of `TraceRunner::updateProgramPosition` (lines
736-739: clear all highlights, then pop the stack).  Both `update` and
`updateProgramPosition` touch the flags only through these. -/
inductive HLOp
  | clear
  | replace (f : TokenReference)
  | push (f : TokenReference)
  | pop
  | nullStepRepoint
  | endOfTraceRepoint
deriving DecidableEq, Repr

/-- Apply one highlighter operation. -/
def applyHLOp (s : HLState) : HLOp → HLState
  | HLOp.clear => clearHighlights s
  | HLOp.replace f => replaceCurrentHighlight s f
  | HLOp.push f => pushHighlight s f
  | HLOp.pop => popHighlight s
  | HLOp.nullStepRepoint =>
    let s1 := clearHighlights s
    match s1.tokenStack with
    | [] => s1
    | top :: rest => { s1 with tokenStack := { tok := top.tok, index := top.index + 1 } :: rest }
  | HLOp.endOfTraceRepoint =>
    let s1 := clearHighlights s
    { s1 with tokenStack := s1.tokenStack.tail }

/-- Apply a sequence of highlighter operations. -/
def runHLOps (s : HLState) : List HLOp → HLState
  | [] => s
  | op :: ops => runHLOps (applyHLOp s op) ops

/-- The state after the `TraceHighlighter` constructor (tracehighlighter.cpp
9-19) over a program of `n` tokens: all flags cleared, empty stack. -/
def initialHLState (n : Nat) : HLState :=
  { emph := List.replicate n false, tokenStack := [] }

/-- The `emphasise` flag of token `i` (false outside the vector). -/
def emphAt (s : HLState) (i : Nat) : Bool :=
  s.emph.getD i false

/-- The character-level scan of `QString::remove("Main_")`: delete an
occurrence of `Main_` where found and continue scanning from the
deletion point, otherwise keep the character and move on. -/
def removeMainAux : List Char → List Char
  | 'M' :: 'a' :: 'i' :: 'n' :: '_' :: rest => removeMainAux rest
  | c :: rest => c :: removeMainAux rest
  | [] => []

/-- `QString::remove("Main_")` (tracehighlighter.cpp 145 =
tracerunner.cpp 766): removes every occurrence of the substring,
scanning left to right and resuming at each deletion point. -/
def removeMainOccurrences (s : String) : String :=
  String.mk (removeMainAux s.toList)

/-- The search start position of `TraceHighlighter::update`
(tracehighlighter.cpp 92-99): one past the top frame's index in the
motion direction, or the first/last token when the stack is empty. -/
def searchStartIndex (stack : List TokenReference) (backwards : Bool) (n : Nat) : Int :=
  match stack with
  | [] => if backwards then (n : Int) - 1 else 0
  | top :: _ => if backwards then top.index - 1 else top.index + 1

/-- The linear scan of the RULE case (tracehighlighter.cpp 147-159 =
tracerunner.cpp 768-781), with explicit fuel: walk the token vector in
the motion direction until an `Identifier` token with the sought text is
found; `none` when the scan runs off either end.  The wrapper below
passes enough fuel for the full walk, so the fuel-exhaustion branch is
never reached from it. -/
def ruleScanGo (toks : List PToken) (target : String) (backwards : Bool) :
    Nat → Int → Option Nat
  | 0, _ => none
  | fuel + 1, pos =>
    if h : 0 ≤ pos ∧ pos < (toks.length : Int) then
      let t := toks.get ⟨pos.toNat, by omega⟩
      if t.lexeme = ProgramLexeme.Identifier ∧ t.text = target then
        some pos.toNat
      else
        ruleScanGo toks target backwards fuel (if backwards then pos - 1 else pos + 1)
    else none

/-- The RULE-case scan at its starting position; the scan visits at most
`toks.length` in-bounds positions plus one out-of-bounds exit. -/
def ruleScan (toks : List PToken) (target : String) (backwards : Bool) (pos : Int) :
    Option Nat :=
  ruleScanGo toks target backwards (toks.length + 1) pos

/-- The RULE case of `TraceHighlighter::update` (tracehighlighter.cpp
131-162; `TraceRunner::updateProgramPosition` lines 753-784 is the same
algorithm): skip when moving forward onto a rule end or backward onto a
rule start; otherwise strip `Main_` occurrences from the step's context
name, scan for a matching `Identifier` token from the current position
in the motion direction, and replace the current highlight with it. -/
def TraceHighlighter.ruleUpdate (toks : List PToken) (s : HLState)
    (nextStep : TraceStep) (backwards : Bool) : HLState :=
  if (¬ backwards ∧ nextStep.endOfContext) ∨ (backwards ∧ ¬ nextStep.endOfContext) then s
  else
    let ruleName := removeMainOccurrences nextStep.contextName
    match ruleScan toks ruleName backwards
        (searchStartIndex s.tokenStack backwards toks.length) with
    | some i => replaceCurrentHighlight s { tok := i, index := (i : Int) }
    | none => s

/-- The claim's reading of the rule-name cleanup, stated from the
claim's words for comparison with the code: strip the marker `Main_`
only when it occurs at the front of the name. -/
def claimStripMainAtFront (s : String) : String :=
  match s.toList with
  | 'M' :: 'a' :: 'i' :: 'n' :: '_' :: rest => String.mk rest
  | _ => s

/-- The RULE highlight update as claim C9 words it (identical to
`TraceHighlighter.ruleUpdate` except for the name cleanup). -/
def TraceHighlighter.ruleUpdateClaimed (toks : List PToken) (s : HLState)
    (nextStep : TraceStep) (backwards : Bool) : HLState :=
  if (¬ backwards ∧ nextStep.endOfContext) ∨ (backwards ∧ ¬ nextStep.endOfContext) then s
  else
    let ruleName := claimStripMainAtFront nextStep.contextName
    match ruleScan toks ruleName backwards
        (searchStartIndex s.tokenStack backwards toks.length) with
    | some i => replaceCurrentHighlight s { tok := i, index := (i : Int) }
    | none => s

/-! ## Concrete tracefiles (spec scenarios), used by witnesses and
counterexamples.  Streams start after the root `<trace>` start element,
which the runner's constructor consumes. -/

/-- A host graph with no nodes or edges. -/
def emptyGraph : Graph := { nodes := [], edges := [] }

/-- Scenario S1 (spec §8): `<rule name="R"><match success="true">
<node id="n1"/></match><apply><createNode id="n2" label="" mark=""
root="false"/></apply></rule>` with input graph `{n1}`. -/
def s1Toks : List XmlTok :=
  [ XmlTok.startEl "rule" [("name", "R")]
  , XmlTok.startEl "match" [("success", "true")]
  , XmlTok.startEl "node" [("id", "n1")]
  , XmlTok.endEl "node"
  , XmlTok.endEl "match"
  , XmlTok.startEl "apply" []
  , XmlTok.startEl "createNode" [("id", "n2"), ("label", ""), ("mark", ""), ("root", "false")]
  , XmlTok.endEl "createNode"
  , XmlTok.endEl "apply"
  , XmlTok.endEl "rule"
  , XmlTok.endEl "trace"
  , XmlTok.endDoc ]

/-- The S1 input graph: the single node `n1`. -/
def s1Graph : Graph :=
  { nodes := [{ id := "n1", label := "", mark := "none", isRoot := false, x := 0, y := 0 }]
  , edges := [] }

/-- Scenario S2 (spec §8): a loop whose first iteration applies a rule
creating node `x` and whose second iteration's match fails. -/
def s2Toks : List XmlTok :=
  [ XmlTok.startEl "loop" []
  , XmlTok.startEl "iteration" []
  , XmlTok.startEl "rule" [("name", "R")]
  , XmlTok.startEl "match" [("success", "true")]
  , XmlTok.endEl "match"
  , XmlTok.startEl "apply" []
  , XmlTok.startEl "createNode" [("id", "x"), ("label", ""), ("mark", ""), ("root", "false")]
  , XmlTok.endEl "createNode"
  , XmlTok.endEl "apply"
  , XmlTok.endEl "rule"
  , XmlTok.endEl "iteration"
  , XmlTok.startEl "iteration" []
  , XmlTok.startEl "rule" [("name", "R")]
  , XmlTok.startEl "match" [("success", "false")]
  , XmlTok.endEl "match"
  , XmlTok.endEl "rule"
  , XmlTok.endEl "iteration"
  , XmlTok.endEl "loop"
  , XmlTok.endEl "trace"
  , XmlTok.endDoc ]

/-- A tracefile whose program is the single leaf statement `skip`. -/
def skipToks : List XmlTok :=
  [ XmlTok.startEl "skip" []
  , XmlTok.endEl "skip"
  , XmlTok.endEl "trace"
  , XmlTok.endDoc ]

/-- The pure context-stack effect of stepping forward over one step
(the dispatch of `stepForward`, tracerunner.cpp 120-129): rule
applications leave the stack alone, end-of-context steps pop, every
other step pushes its kind. -/
def stepCtx (ctx : List TraceStepType) (st : TraceStep) : List TraceStepType :=
  if st.type = TraceStepType.RULE_APPLICATION then ctx
  else if st.endOfContext then ctx.tail
  else st.type :: ctx

/-- Push/pop balance checker for a step list at a given starting depth:
rule applications are neutral, an end-of-context step must find a
non-empty stack and pops it, every other step pushes. -/
def balCheck : Nat → List TraceStep → Bool
  | d, [] => d == 0
  | d, st :: l =>
    if st.type = TraceStepType.RULE_APPLICATION then balCheck d l
    else if st.endOfContext then decide (0 < d) && balCheck (d - 1) l
    else balCheck (d + 1) l

/-- The step buffer the runner's inline parser produces for S1. -/
def s1Steps : List TraceStep := (TraceRunner.pipeline s1Toks s1Graph).traceSteps

/-- The parse-complete runner over the S2 tracefile and an empty graph. -/
def s2Runner : RunnerState := TraceRunner.pipeline s2Toks emptyGraph

/-- The parse-complete runner over the skip tracefile and an empty graph. -/
def skipRunner : RunnerState := TraceRunner.pipeline skipToks emptyGraph

/-- A Rule step flagged as the end of its context (a `</rule>` step). -/
def c2Step : TraceStep :=
  { defaultTraceStep with type := TraceStepType.RULE, endOfContext := true }

/-- A runner positioned on the Rule end step `c2Step`. -/
def c2Runner : RunnerState := TraceRunner.initial [c2Step] emptyGraph

/-- The tokenized one-rule program `a_b` used against claim C9: a single
`Identifier` token. -/
def c9Toks : List PToken := [{ lexeme := ProgramLexeme.Identifier, text := "a_b" }]

/-- A Rule trace step whose compiler-decorated context name contains
`Main_` in the middle rather than as a marker at the front. -/
def c9Step : TraceStep :=
  { defaultTraceStep with type := TraceStepType.RULE, contextName := "a_Main_b" }

/-- A Rule trace step for the rule `Main_r` (rule `r` called from Main). -/
def c9FwdStep : TraceStep :=
  { defaultTraceStep with type := TraceStepType.RULE, contextName := "Main_r" }

/-- Whether token `i` is an `Identifier` whose text equals `target`
(the search predicate of the RULE highlight case). -/
def identMatchB (toks : List PToken) (target : String) (i : Nat) : Bool :=
  match toks[i]? with
  | some t => t.lexeme == ProgramLexeme.Identifier && t.text == target
  | none => false

/-- The highlighter emphasis invariant: any emphasised token is the one
referenced by the top frame of the token stack. -/
def HLInv (s : HLState) : Prop :=
  ∀ i : Nat, s.emph.getD i false = true →
    ∃ f rest, s.tokenStack = f :: rest ∧ i = f.tok

/-! ## Supporting lemmas -/

theorem find?_of_filter_eq_single {α : Type} (p : α → Bool) :
    ∀ (l : List α) (m : α), l.filter p = [m] → l.find? p = some m := by
  intro l m h
  induction l with
  | nil => simp at h
  | cons a l ih =>
    by_cases hp : p a
    · rw [List.filter_cons_of_pos hp] at h
      rw [List.find?_cons_of_pos _ hp]
      exact congrArg some (List.cons_eq_cons.mp h).1
    · rw [List.filter_cons_of_neg hp] at h
      rw [List.find?_cons_of_neg _ hp]
      exact ih h

theorem filter_not_append_single_perm {α : Type} (p : α → Bool) (l : List α) (m : α)
    (h : l.filter p = [m]) :
    (l.filter (fun x => !(p x)) ++ [m]).Perm l := by
  have hper := List.filter_append_perm p l
  rw [h] at hper
  exact List.perm_append_comm.trans hper

theorem map_map_id_of_mem {α : Type} (f g : α → α) (l : List α)
    (h : ∀ x ∈ l, g (f x) = x) : (l.map f).map g = l := by
  rw [List.map_map]
  calc l.map (g ∘ f) = l.map id := List.map_congr_left h
    _ = l := List.map_id l

theorem GraphPerm.rfl (g : Graph) : GraphPerm g g :=
  ⟨List.Perm.refl _, List.Perm.refl _⟩

theorem GraphPerm.trans {g h k : Graph} (h1 : GraphPerm g h) (h2 : GraphPerm h k) :
    GraphPerm g k :=
  ⟨h1.1.trans h2.1, h1.2.trans h2.2⟩

/-- Forward application followed by reversal of a single applicable
graph change restores the graph up to the order of its node and edge
lists. -/
theorem revert_apply_change (g : Graph) (c : GraphChange)
    (h : applicableChange g c = true) :
    GraphPerm (revertGraphChange (applyGraphChange g c).1 (applyGraphChange g c).2) g := by
  obtain ⟨ty, ex, ne⟩ := c
  cases ty with
  | MORPHISM => exact GraphPerm.rfl g
  | INVALID => exact GraphPerm.rfl g
  | ADD_EDGE =>
    cases ne with
    | node n => simp [applicableChange, graph_item_t.asEdge] at h
    | edge e =>
      simp only [applicableChange, graph_item_t.asEdge, List.all_eq_true] at h
      simp only [applyGraphChange, revertGraphChange, graph_item_t.asEdge,
        Graph.addEdge, Graph.removeEdge]
      refine ⟨List.Perm.refl _, ?_⟩
      rw [List.filter_append]
      have h1 : g.edges.filter (fun x => !(x.id == e.id)) = g.edges :=
        List.filter_eq_self.mpr h
      have h2 : List.filter (fun x => !(x.id == e.id))
          [({ id := e.id, fromId := e.fromId, toId := e.toId
            , label := ListToString e.label.values, mark := e.label.mark } : GEdge)] = [] := by
        simp
      rw [h1, h2, List.append_nil]
  | ADD_NODE =>
    cases ne with
    | edge e => simp [applicableChange, graph_item_t.asNode] at h
    | node n =>
      simp only [applicableChange, graph_item_t.asNode, List.all_eq_true] at h
      simp only [applyGraphChange, revertGraphChange, graph_item_t.asNode,
        Graph.addNode, Graph.removeNode]
      refine ⟨?_, List.Perm.refl _⟩
      rw [List.filter_append]
      have h1 : g.nodes.filter (fun x => !(x.id == n.id)) = g.nodes :=
        List.filter_eq_self.mpr h
      have h2 : List.filter (fun x => !(x.id == n.id))
          [({ id := n.id, label := ListToString n.label.values
            , mark := n.label.mark, isRoot := n.isRoot, x := 0, y := 0 } : GNode)] = [] := by
        simp
      rw [h1, h2, List.append_nil]
  | DELETE_EDGE =>
    cases ex with
    | node n => simp [applicableChange, graph_item_t.asEdge] at h
    | edge e =>
      simp only [applicableChange, graph_item_t.asEdge] at h
      have hf := eq_of_beq h
      simp only [applyGraphChange, revertGraphChange, graph_item_t.asEdge,
        Graph.addEdge, Graph.removeEdge]
      exact ⟨List.Perm.refl _, filter_not_append_single_perm _ _ _ hf⟩
  | DELETE_NODE =>
    cases ex with
    | edge e => simp [applicableChange, graph_item_t.asNode] at h
    | node n =>
      simp only [applicableChange, graph_item_t.asNode] at h
      cases hf : g.nodes.filter (fun gn => gn.id == n.id) with
      | nil => rw [hf] at h; simp at h
      | cons m tail =>
        cases tail with
        | cons m2 t2 => rw [hf] at h; simp at h
        | nil =>
          rw [hf] at h
          simp only [Bool.and_eq_true, beq_iff_eq] at h
          obtain ⟨⟨hlab, hmark⟩, hroot⟩ := h
          have hmm : m ∈ g.nodes.filter (fun gn => gn.id == n.id) := by
            rw [hf]; exact List.mem_singleton.mpr rfl
          have hmid : m.id = n.id := by
            have := (List.mem_filter.mp hmm).2
            exact eq_of_beq this
          have hfind : g.node n.id = some m :=
            find?_of_filter_eq_single _ _ _ hf
          simp only [applyGraphChange, revertGraphChange, graph_item_t.asNode, hfind,
            Graph.addNode, Graph.removeNode]
          refine ⟨?_, List.Perm.refl _⟩
          have hrec : ({ id := n.id, label := ListToString n.label.values
                       , mark := n.label.mark, isRoot := n.isRoot
                       , x := m.x, y := m.y } : GNode) = m := by
            rw [← hmid, ← hlab, ← hmark, ← hroot]
          rw [hrec]
          exact filter_not_append_single_perm _ _ _ hf
  | RELABEL_EDGE =>
    cases ex with
    | node n => simp [applicableChange, graph_item_t.asEdge] at h
    | edge old =>
      cases ne with
      | node n2 => simp [applicableChange, graph_item_t.asEdge] at h
      | edge e =>
        simp only [applicableChange, graph_item_t.asEdge, Bool.and_eq_true,
          List.all_eq_true] at h
        obtain ⟨⟨hid, _⟩, hall⟩ := h
        have hid' : e.id = old.id := eq_of_beq hid
        simp only [applyGraphChange, revertGraphChange, graph_item_t.asEdge,
          Graph.setEdgeLabel]
        refine ⟨List.Perm.refl _, ?_⟩
        apply List.Perm.of_eq
        apply map_map_id_of_mem
        intro x hx
        by_cases hxid : x.id == e.id
        · have hcond := hall x hx
          rw [hxid] at hcond
          simp only [Bool.not_true, Bool.false_or, beq_iff_eq] at hcond
          have hxid2 : x.id == old.id := by rw [← hid']; exact hxid
          simp only [hxid, if_true, hxid2, if_true]
          rw [← hcond]
        · have hxid2 : (x.id == old.id) = false := by
            rw [← hid']; exact Bool.of_not_eq_true hxid
          simp [hxid, hxid2]
  | RELABEL_NODE =>
    cases ex with
    | edge e => simp [applicableChange, graph_item_t.asNode] at h
    | node old =>
      cases ne with
      | edge e2 => simp [applicableChange, graph_item_t.asNode] at h
      | node n =>
        simp only [applicableChange, graph_item_t.asNode, Bool.and_eq_true,
          List.all_eq_true] at h
        obtain ⟨⟨hid, _⟩, hall⟩ := h
        have hid' : n.id = old.id := eq_of_beq hid
        simp only [applyGraphChange, revertGraphChange, graph_item_t.asNode,
          Graph.setNodeLabel]
        refine ⟨?_, List.Perm.refl _⟩
        apply List.Perm.of_eq
        apply map_map_id_of_mem
        intro x hx
        by_cases hxid : x.id == n.id
        · have hcond := hall x hx
          rw [hxid] at hcond
          simp only [Bool.not_true, Bool.false_or, beq_iff_eq] at hcond
          have hxid2 : x.id == old.id := by rw [← hid']; exact hxid
          simp only [hxid, if_true, hxid2, if_true]
          rw [← hcond]
        · have hxid2 : (x.id == old.id) = false := by
            rw [← hid']; exact Bool.of_not_eq_true hxid
          simp [hxid, hxid2]
  | REMARK_EDGE =>
    cases ex with
    | node n => simp [applicableChange, graph_item_t.asEdge] at h
    | edge old =>
      cases ne with
      | node n2 => simp [applicableChange, graph_item_t.asEdge] at h
      | edge e =>
        simp only [applicableChange, graph_item_t.asEdge, Bool.and_eq_true,
          List.all_eq_true] at h
        obtain ⟨⟨hid, _⟩, hall⟩ := h
        have hid' : e.id = old.id := eq_of_beq hid
        simp only [applyGraphChange, revertGraphChange, graph_item_t.asEdge,
          Graph.setEdgeMark]
        refine ⟨List.Perm.refl _, ?_⟩
        apply List.Perm.of_eq
        apply map_map_id_of_mem
        intro x hx
        by_cases hxid : x.id == e.id
        · have hcond := hall x hx
          rw [hxid] at hcond
          simp only [Bool.not_true, Bool.false_or, beq_iff_eq] at hcond
          have hxid2 : x.id == old.id := by rw [← hid']; exact hxid
          simp only [hxid, if_true, hxid2, if_true]
          rw [← hcond]
        · have hxid2 : (x.id == old.id) = false := by
            rw [← hid']; exact Bool.of_not_eq_true hxid
          simp [hxid, hxid2]
  | REMARK_NODE =>
    cases ex with
    | edge e => simp [applicableChange, graph_item_t.asNode] at h
    | node old =>
      cases ne with
      | edge e2 => simp [applicableChange, graph_item_t.asNode] at h
      | node n =>
        simp only [applicableChange, graph_item_t.asNode, Bool.and_eq_true,
          List.all_eq_true] at h
        obtain ⟨⟨hid, _⟩, hall⟩ := h
        have hid' : n.id = old.id := eq_of_beq hid
        simp only [applyGraphChange, revertGraphChange, graph_item_t.asNode,
          Graph.setNodeMark]
        refine ⟨?_, List.Perm.refl _⟩
        apply List.Perm.of_eq
        apply map_map_id_of_mem
        intro x hx
        by_cases hxid : x.id == n.id
        · have hcond := hall x hx
          rw [hxid] at hcond
          simp only [Bool.not_true, Bool.false_or, beq_iff_eq] at hcond
          have hxid2 : x.id == old.id := by rw [← hid']; exact hxid
          simp only [hxid, if_true, hxid2, if_true]
          rw [← hcond]
        · have hxid2 : (x.id == old.id) = false := by
            rw [← hid']; exact Bool.of_not_eq_true hxid
          simp [hxid, hxid2]
  | SET_ROOT =>
    cases ne with
    | edge e => simp [applicableChange, graph_item_t.asNode] at h
    | node n =>
      simp only [applicableChange, graph_item_t.asNode, List.all_eq_true] at h
      simp only [applyGraphChange, revertGraphChange, graph_item_t.asNode,
        Graph.setNodeRoot]
      refine ⟨?_, List.Perm.refl _⟩
      apply List.Perm.of_eq
      apply map_map_id_of_mem
      intro x hx
      by_cases hxid : x.id == n.id
      · have hcond := h x hx
        rw [hxid] at hcond
        simp only [Bool.not_true, Bool.false_or, beq_iff_eq] at hcond
        simp only [hxid, if_true]
        rw [← hcond]
      · simp [hxid]
  | REMOVE_ROOT =>
    cases ne with
    | edge e => simp [applicableChange, graph_item_t.asNode] at h
    | node n =>
      simp only [applicableChange, graph_item_t.asNode, List.all_eq_true] at h
      simp only [applyGraphChange, revertGraphChange, graph_item_t.asNode,
        Graph.setNodeRoot]
      refine ⟨?_, List.Perm.refl _⟩
      apply List.Perm.of_eq
      apply map_map_id_of_mem
      intro x hx
      by_cases hxid : x.id == n.id
      · have hcond := h x hx
        rw [hxid] at hcond
        simp only [Bool.not_true, Bool.false_or, beq_iff_eq] at hcond
        simp only [hxid, if_true]
        rw [← hcond]
      · simp [hxid]

/-- Undoing a change respects permutation of the graph's node and edge
lists (every reverse effect is a filter, an append or a map). -/
theorem revertGraphChange_perm {g h : Graph} (hp : GraphPerm g h) (c : GraphChange) :
    GraphPerm (revertGraphChange g c) (revertGraphChange h c) := by
  obtain ⟨hn, he⟩ := hp
  obtain ⟨ty, ex, ne⟩ := c
  cases ty with
  | MORPHISM => exact ⟨hn, he⟩
  | INVALID => exact ⟨hn, he⟩
  | ADD_EDGE =>
    cases ne with
    | node n => exact ⟨hn, he⟩
    | edge e => exact ⟨hn, he.filter _⟩
  | ADD_NODE =>
    cases ne with
    | edge e => exact ⟨hn, he⟩
    | node n => exact ⟨hn.filter _, he⟩
  | DELETE_EDGE =>
    cases ex with
    | node n => exact ⟨hn, he⟩
    | edge e => exact ⟨hn, he.append_right _⟩
  | DELETE_NODE =>
    cases ex with
    | edge e => exact ⟨hn, he⟩
    | node n => exact ⟨hn.append_right _, he⟩
  | RELABEL_EDGE =>
    cases ex with
    | node n => exact ⟨hn, he⟩
    | edge e => exact ⟨hn, he.map _⟩
  | RELABEL_NODE =>
    cases ex with
    | edge e => exact ⟨hn, he⟩
    | node n => exact ⟨hn.map _, he⟩
  | REMARK_EDGE =>
    cases ex with
    | node n => exact ⟨hn, he⟩
    | edge e => exact ⟨hn, he.map _⟩
  | REMARK_NODE =>
    cases ex with
    | edge e => exact ⟨hn, he⟩
    | node n => exact ⟨hn.map _, he⟩
  | SET_ROOT =>
    cases ne with
    | edge e => exact ⟨hn, he⟩
    | node n => exact ⟨hn.map _, he⟩
  | REMOVE_ROOT =>
    cases ne with
    | edge e => exact ⟨hn, he⟩
    | node n => exact ⟨hn.map _, he⟩

/-- Undoing a change list respects permutation of the graph. -/
theorem revertGraphChanges_perm {g h : Graph} (hp : GraphPerm g h) :
    ∀ cs : List GraphChange,
      GraphPerm (revertGraphChanges g cs) (revertGraphChanges h cs) := by
  intro cs
  induction cs with
  | nil => exact hp
  | cons c rest ih => exact revertGraphChange_perm ih c

/-- The rule-application round trip: applying an applicable change list
forward (capturing positions) and then reverting the captured list in
reverse order restores the graph up to permutation
(`applyCurrentStepChanges` then `revertCurrentStepChanges`). -/
theorem revert_apply_changes (cs : List GraphChange) :
    ∀ g : Graph, applicableChanges g cs = true →
      GraphPerm (revertGraphChanges (applyGraphChanges g cs).1 (applyGraphChanges g cs).2) g := by
  induction cs with
  | nil => intro g _; exact GraphPerm.rfl g
  | cons c rest ih =>
    intro g h
    rw [applicableChanges, Bool.and_eq_true] at h
    obtain ⟨hc, hrest⟩ := h
    have ihp := ih (applyGraphChange g c).1 hrest
    show GraphPerm
      (revertGraphChange
        (revertGraphChanges (applyGraphChanges (applyGraphChange g c).1 rest).1
          (applyGraphChanges (applyGraphChange g c).1 rest).2)
        (applyGraphChange g c).2) g
    exact GraphPerm.trans
      (revertGraphChange_perm ihp (applyGraphChange g c).2)
      (revert_apply_change g c hc)

theorem TraceRunner.stepForwardState_nonapply (s : RunnerState) (st : TraceStep)
    (hg : s.traceSteps[s.currentStep]? = some st)
    (hty : st.type ≠ TraceStepType.RULE_APPLICATION) :
    (TraceRunner.stepForwardState s).graph = s.graph ∧
      (TraceRunner.stepForwardState s).traceSteps = s.traceSteps := by
  unfold TraceRunner.stepForwardState
  by_cases he : st.endOfContext <;> simp [hg, hty, he]

theorem TraceRunner.stepForwardState_apply (s : RunnerState) (st : TraceStep)
    (hg : s.traceSteps[s.currentStep]? = some st)
    (hty : st.type = TraceStepType.RULE_APPLICATION) :
    TraceRunner.stepForwardState s =
      { s with graph := (applyGraphChanges s.graph st.graphChanges).1
             , traceSteps := s.traceSteps.set s.currentStep
                 { st with graphChanges := (applyGraphChanges s.graph st.graphChanges).2 }
             , currentStep := s.currentStep + 1 } := by
  unfold TraceRunner.stepForwardState TraceRunner.applyCurrentStepChanges
  simp [hg, hty]

theorem TraceRunner.stepForwardState_cases (s : RunnerState) :
    (TraceRunner.stepForwardState s).currentStep = s.currentStep + 1 ∨
      TraceRunner.stepForwardState s = s := by
  unfold TraceRunner.stepForwardState TraceRunner.applyCurrentStepChanges
  cases hg : s.traceSteps[s.currentStep]? with
  | none => right; simp
  | some st =>
    left
    by_cases hty : st.type = TraceStepType.RULE_APPLICATION
    · simp [hg, hty]
    · by_cases he : st.endOfContext <;> simp [hg, hty, he]

theorem TraceRunner.stepForwardState_steps_lt (s : RunnerState) (i : Nat)
    (hi : i < s.currentStep) :
    (TraceRunner.stepForwardState s).traceSteps[i]? = s.traceSteps[i]? := by
  unfold TraceRunner.stepForwardState TraceRunner.applyCurrentStepChanges
  cases hg : s.traceSteps[s.currentStep]? with
  | none => simp
  | some st =>
    by_cases hty : st.type = TraceStepType.RULE_APPLICATION
    · simp only [hg, hty, if_true]
      exact List.getElem?_set_ne (by omega)
    · by_cases he : st.endOfContext <;> simp [hg, hty, he]

theorem TraceRunner.runForwardN_length (k : Nat) :
    ∀ s : RunnerState, (TraceRunner.runForwardN s k).traceSteps.length = s.traceSteps.length := by
  induction k with
  | zero => intro s; rfl
  | succ k ih =>
    intro s
    show (TraceRunner.runForwardN (TraceRunner.stepForwardState s) k).traceSteps.length = _
    rw [ih, TraceRunner.stepForwardState_traceSteps_length]

theorem TraceRunner.runForwardN_currentStep (k : Nat) :
    ∀ s : RunnerState, s.currentStep + k ≤ s.traceSteps.length →
      (TraceRunner.runForwardN s k).currentStep = s.currentStep + k := by
  induction k with
  | zero => intro s _; rfl
  | succ k ih =>
    intro s hb
    show (TraceRunner.runForwardN (TraceRunner.stepForwardState s) k).currentStep = _
    have hlt : s.currentStep < s.traceSteps.length := by omega
    have hc := TraceRunner.stepForwardState_currentStep s hlt
    have hl := TraceRunner.stepForwardState_traceSteps_length s
    rw [ih (TraceRunner.stepForwardState s) (by rw [hc, hl]; omega), hc]
    omega

theorem TraceRunner.runForwardN_steps_lt (k : Nat) :
    ∀ (s : RunnerState) (i : Nat), i < s.currentStep →
      (TraceRunner.runForwardN s k).traceSteps[i]? = s.traceSteps[i]? := by
  induction k with
  | zero => intro s i _; rfl
  | succ k ih =>
    intro s i hi
    show (TraceRunner.runForwardN (TraceRunner.stepForwardState s) k).traceSteps[i]? = _
    have hi' : i < (TraceRunner.stepForwardState s).currentStep := by
      rcases TraceRunner.stepForwardState_cases s with hc | hc
      · omega
      · rw [hc]; exact hi
    rw [ih (TraceRunner.stepForwardState s) i hi']
    exact TraceRunner.stepForwardState_steps_lt s i hi

theorem TraceRunner.stepBackwardState_traceSteps (s : RunnerState) :
    (TraceRunner.stepBackwardState s).traceSteps = s.traceSteps := by
  unfold TraceRunner.stepBackwardState TraceRunner.revertCurrentStepChanges
  cases hg : s.traceSteps[s.currentStep - 1]? with
  | none => simp [hg]
  | some st =>
    by_cases hty : st.type = TraceStepType.RULE_APPLICATION
    · simp [hg, hty]
    · by_cases he : st.endOfContext <;> simp [hg, hty, he]

theorem TraceRunner.runBackwardN_traceSteps (k : Nat) :
    ∀ s : RunnerState, (TraceRunner.runBackwardN s k).traceSteps = s.traceSteps := by
  induction k with
  | zero => intro s; rfl
  | succ k ih =>
    intro s
    show (TraceRunner.runBackwardN (TraceRunner.stepBackwardState s) k).traceSteps = _
    rw [ih, TraceRunner.stepBackwardState_traceSteps]

theorem TraceRunner.runBackwardN_currentStep (k : Nat) :
    ∀ s : RunnerState, (TraceRunner.runBackwardN s k).currentStep = s.currentStep - k := by
  induction k with
  | zero => intro s; rfl
  | succ k ih =>
    intro s
    show (TraceRunner.runBackwardN (TraceRunner.stepBackwardState s) k).currentStep = _
    rw [ih, TraceRunner.stepBackwardState_currentStep]
    omega

theorem TraceRunner.runBackwardN_succ_outer (k : Nat) :
    ∀ s : RunnerState,
      TraceRunner.runBackwardN s (k + 1) =
        TraceRunner.stepBackwardState (TraceRunner.runBackwardN s k) := by
  induction k with
  | zero => intro s; rfl
  | succ k ih =>
    intro s
    show TraceRunner.runBackwardN (TraceRunner.stepBackwardState s) (k + 1) = _
    rw [ih (TraceRunner.stepBackwardState s)]
    rfl

/-- Stepping backward respects permutation of the graph: the graph part
of `stepBackward` depends only on the step being stepped over and the
graph, and every reverse effect respects permutation. -/
theorem TraceRunner.stepBackwardState_graph_perm (t u : RunnerState)
    (hst : t.traceSteps[t.currentStep - 1]? = u.traceSteps[u.currentStep - 1]?)
    (hp : GraphPerm t.graph u.graph) :
    GraphPerm (TraceRunner.stepBackwardState t).graph
      (TraceRunner.stepBackwardState u).graph := by
  unfold TraceRunner.stepBackwardState TraceRunner.revertCurrentStepChanges
  cases hg : u.traceSteps[u.currentStep - 1]? with
  | none =>
    rw [hg] at hst
    simpa [hst, hg] using hp
  | some st =>
    rw [hg] at hst
    by_cases hty : st.type = TraceStepType.RULE_APPLICATION
    · simp only [hst, hg, hty, if_true]
      simpa using revertGraphChanges_perm hp st.graphChanges
    · by_cases he : st.endOfContext <;> simpa [hst, hg, hty, he] using hp

/-- Stepping backward over anything but a rule application leaves the
graph untouched. -/
theorem TraceRunner.stepBackwardState_graph_nonapply (s : RunnerState) (st : TraceStep)
    (hg : s.traceSteps[s.currentStep - 1]? = some st)
    (hty : st.type ≠ TraceStepType.RULE_APPLICATION) :
    (TraceRunner.stepBackwardState s).graph = s.graph := by
  unfold TraceRunner.stepBackwardState TraceRunner.revertCurrentStepChanges
  by_cases he : st.endOfContext <;> simp [hg, hty, he]

/-- The central round trip: `k` forward steps followed by `k` backward
steps restore the host graph up to permutation of the node and edge
lists, for any in-bounds run whose rule applications are applicable. -/
theorem TraceRunner.roundtrip (k : Nat) :
    ∀ s : RunnerState,
      s.currentStep + k ≤ s.traceSteps.length →
      TraceRunner.okRun s k = true →
      GraphPerm (TraceRunner.runBackwardN (TraceRunner.runForwardN s k) k).graph s.graph := by
  induction k with
  | zero => intro s _ _; exact GraphPerm.rfl _
  | succ k ih =>
    intro s hb hok
    have hlt : s.currentStep < s.traceSteps.length := by omega
    have hg : s.traceSteps[s.currentStep]? = some s.traceSteps[s.currentStep] :=
      List.getElem?_eq_getElem hlt
    set st := s.traceSteps[s.currentStep] with hst
    have hok2 : TraceRunner.okRun s (k + 1) =
        ((match s.traceSteps[s.currentStep]? with
          | some step =>
            if step.type = TraceStepType.RULE_APPLICATION then
              applicableChanges s.graph step.graphChanges
            else true
          | none => true)
         && TraceRunner.okRun (TraceRunner.stepForwardState s) k) := rfl
    rw [hok2, Bool.and_eq_true] at hok
    obtain ⟨hcond, hoknext⟩ := hok
    rw [hg] at hcond
    set u := TraceRunner.stepForwardState s with hu
    have hcF : u.currentStep = s.currentStep + 1 :=
      TraceRunner.stepForwardState_currentStep s hlt
    have hlF : u.traceSteps.length = s.traceSteps.length :=
      TraceRunner.stepForwardState_traceSteps_length s
    have hbF : u.currentStep + k ≤ u.traceSteps.length := by
      rw [hcF, hlF]; omega
    have ihp := ih u hbF hoknext
    show GraphPerm (TraceRunner.runBackwardN (TraceRunner.runForwardN u k) (k + 1)).graph
      s.graph
    set X := TraceRunner.runForwardN u k with hX
    rw [TraceRunner.runBackwardN_succ_outer]
    set Y := TraceRunner.runBackwardN X k with hY
    have hYsteps : Y.traceSteps = X.traceSteps := TraceRunner.runBackwardN_traceSteps k X
    have hXc : X.currentStep = s.currentStep + 1 + k := by
      rw [hX, TraceRunner.runForwardN_currentStep k _ hbF, hcF]
    have hYc : Y.currentStep = s.currentStep + 1 := by
      rw [hY, TraceRunner.runBackwardN_currentStep, hXc]; omega
    have hXlook : X.traceSteps[s.currentStep]? = u.traceSteps[s.currentStep]? := by
      rw [hX]
      exact TraceRunner.runForwardN_steps_lt k _ _ (by omega)
    have hlook : Y.traceSteps[Y.currentStep - 1]? = u.traceSteps[u.currentStep - 1]? := by
      rw [hYsteps, hYc, hcF, Nat.add_sub_cancel, hXlook]
    have hmid := TraceRunner.stepBackwardState_graph_perm Y u hlook ihp
    refine GraphPerm.trans hmid ?_
    by_cases hty : st.type = TraceStepType.RULE_APPLICATION
    · have hcond' : (if st.type = TraceStepType.RULE_APPLICATION then
          applicableChanges s.graph st.graphChanges else true) = true := hcond
      rw [hty] at hcond'
      simp only [eq_self_iff_true, if_true] at hcond'
      have happ := TraceRunner.stepForwardState_apply s st hg hty
      rw [hu, happ]
      unfold TraceRunner.stepBackwardState TraceRunner.revertCurrentStepChanges
      set st' : TraceStep :=
        { st with graphChanges := (applyGraphChanges s.graph st.graphChanges).2 } with hst'
      set L : List TraceStep := s.traceSteps.set s.currentStep st' with hL
      have hset : L[s.currentStep]? = some st' :=
        List.getElem?_set_self hlt
      have htyset : st'.type = TraceStepType.RULE_APPLICATION := hty
      simp only [Nat.add_sub_cancel]
      simp only [hset, hty, eq_self_iff_true, if_true]
      simpa using revert_apply_changes st.graphChanges s.graph hcond'
    · have hnon := TraceRunner.stepForwardState_nonapply s st hg hty
      have hlook2 : u.traceSteps[u.currentStep - 1]? = some st := by
        rw [hcF, Nat.add_sub_cancel]
        have : u.traceSteps = s.traceSteps := hnon.2
        rw [this]
        exact hg
      have hnb := TraceRunner.stepBackwardState_graph_nonapply u st hlook2 hty
      rw [hnb]
      have : u.graph = s.graph := hnon.1
      rw [this]
      exact GraphPerm.rfl _

/-- `goToEnd`'s loop is exactly `steps.length - cursor` forward steps. -/
theorem TraceRunner.goToEnd_eq (s : RunnerState) :
    TraceRunner.goToEnd s =
      TraceRunner.runForwardN s (s.traceSteps.length - s.currentStep) := by
  induction s using TraceRunner.goToEnd.induct with
  | case1 s h ih =>
    rw [TraceRunner.goToEnd]
    simp only [h, dif_pos]
    rw [ih]
    have hc := TraceRunner.stepForwardState_currentStep s h
    have hl := TraceRunner.stepForwardState_traceSteps_length s
    have harith : s.traceSteps.length - s.currentStep =
        ((TraceRunner.stepForwardState s).traceSteps.length -
          (TraceRunner.stepForwardState s).currentStep) + 1 := by
      rw [hc, hl]; omega
    rw [harith]
    rfl
  | case2 s h =>
    rw [TraceRunner.goToEnd]
    simp only [h, dif_neg]
    have : s.traceSteps.length - s.currentStep = 0 := by omega
    rw [this]
    rfl

theorem TraceRunner.stepForwardState_contextStack (s : RunnerState) (st : TraceStep)
    (hg : s.traceSteps[s.currentStep]? = some st) :
    (TraceRunner.stepForwardState s).contextStack = stepCtx s.contextStack st := by
  unfold TraceRunner.stepForwardState TraceRunner.applyCurrentStepChanges stepCtx
  by_cases hty : st.type = TraceStepType.RULE_APPLICATION
  · simp [hg, hty]
  · by_cases he : st.endOfContext <;> simp [hg, hty, he]

theorem TraceRunner.stepForwardState_steps_drop (s : RunnerState) :
    (TraceRunner.stepForwardState s).traceSteps.drop (s.currentStep + 1) =
      s.traceSteps.drop (s.currentStep + 1) := by
  unfold TraceRunner.stepForwardState TraceRunner.applyCurrentStepChanges
  cases hg : s.traceSteps[s.currentStep]? with
  | none => simp
  | some st =>
    by_cases hty : st.type = TraceStepType.RULE_APPLICATION
    · simp only [hg, hty, if_true]
      exact List.drop_set_of_lt _ _ (by omega)
    · by_cases he : st.endOfContext <;> simp [hg, hty, he]

/-- The context stack after `k` forward steps is the fold of the pure
per-step effect over the window of steps walked over. -/
theorem TraceRunner.runForwardN_contextStack (k : Nat) :
    ∀ s : RunnerState, s.currentStep + k ≤ s.traceSteps.length →
      (TraceRunner.runForwardN s k).contextStack =
        ((s.traceSteps.drop s.currentStep).take k).foldl stepCtx s.contextStack := by
  induction k with
  | zero => intro s _; simp [TraceRunner.runForwardN]
  | succ k ih =>
    intro s hb
    have hlt : s.currentStep < s.traceSteps.length := by omega
    have hg : s.traceSteps[s.currentStep]? = some s.traceSteps[s.currentStep] :=
      List.getElem?_eq_getElem hlt
    set st := s.traceSteps[s.currentStep] with hst
    set u := TraceRunner.stepForwardState s with hu
    have hcF : u.currentStep = s.currentStep + 1 :=
      TraceRunner.stepForwardState_currentStep s hlt
    have hlF : u.traceSteps.length = s.traceSteps.length :=
      TraceRunner.stepForwardState_traceSteps_length s
    have hbF : u.currentStep + k ≤ u.traceSteps.length := by rw [hcF, hlF]; omega
    show (TraceRunner.runForwardN u k).contextStack = _
    rw [ih u hbF]
    have hctx : u.contextStack = stepCtx s.contextStack st :=
      TraceRunner.stepForwardState_contextStack s st hg
    have hdrop : u.traceSteps.drop u.currentStep = s.traceSteps.drop (s.currentStep + 1) := by
      rw [hcF, hu]
      exact TraceRunner.stepForwardState_steps_drop s
    rw [hctx, hdrop]
    have hwin : (s.traceSteps.drop s.currentStep).take (k + 1) =
        st :: ((s.traceSteps.drop (s.currentStep + 1)).take k) := by
      rw [List.drop_eq_getElem_cons hlt]
      rfl
    rw [hwin]
    rfl

theorem getD_setEmph_true (l : List Bool) (k i : Nat)
    (h : (setEmph l k true).getD i false = true) :
    i = k ∨ l.getD i false = true := by
  by_cases hik : i = k
  · exact Or.inl hik
  · right
    rw [setEmph, List.getD_eq_getElem?_getD, List.getElem?_set_ne (Ne.symm hik)] at h
    rw [List.getD_eq_getElem?_getD]
    exact h

theorem getD_setEmph_false (l : List Bool) (k i : Nat)
    (h : (setEmph l k false).getD i false = true) :
    i ≠ k ∧ l.getD i false = true := by
  by_cases hik : i = k
  · exfalso
    subst hik
    by_cases hlen : i < l.length
    · rw [setEmph, List.getD_eq_getElem?_getD, List.getElem?_set_self hlen] at h
      simp at h
    · rw [setEmph, List.set_eq_of_length_le (by omega),
          List.getD_eq_getElem?_getD, List.getElem?_eq_none (by omega)] at h
      simp at h
  · constructor
    · exact hik
    · rw [setEmph, List.getD_eq_getElem?_getD, List.getElem?_set_ne (Ne.symm hik)] at h
      rw [List.getD_eq_getElem?_getD]
      exact h

theorem getD_map_false (l : List Bool) (i : Nat) :
    (l.map (fun _ => false)).getD i false = false := by
  rw [List.getD_eq_getElem?_getD, List.getElem?_map]
  cases l[i]? <;> rfl

theorem hlInv_clearHighlights (s : HLState) : HLInv (clearHighlights s) := by
  intro i hi
  rw [clearHighlights] at hi
  rw [getD_map_false] at hi
  exact absurd hi (by simp)

theorem hlInv_replaceCurrentHighlight (s : HLState) (f : TokenReference)
    (h : HLInv s) : HLInv (replaceCurrentHighlight s f) := by
  intro i hi
  unfold replaceCurrentHighlight at hi ⊢
  cases hs : s.tokenStack with
  | nil =>
    rw [hs] at hi
    simp only at hi ⊢
    rcases getD_setEmph_true _ _ _ hi with hik | hold
    · exact ⟨f, s.tokenStack, rfl, hik⟩
    · obtain ⟨f', rest', hst, _⟩ := h i hold
      rw [hs] at hst
      exact absurd hst (by simp)
  | cons top rest =>
    rw [hs] at hi
    simp only at hi ⊢
    rcases getD_setEmph_true _ _ _ hi with hik | hold
    · exact ⟨f, rest, rfl, hik⟩
    · obtain ⟨hne, hsold⟩ := getD_setEmph_false _ _ _ hold
      obtain ⟨f', rest', hst, hif⟩ := h i hsold
      rw [hs] at hst
      have : top = f' := (List.cons_eq_cons.mp hst).1
      rw [← this] at hif
      exact absurd hif hne

theorem hlInv_pushHighlight (s : HLState) (f : TokenReference)
    (h : HLInv s) : HLInv (pushHighlight s f) := by
  intro i hi
  unfold pushHighlight at hi ⊢
  cases hs : s.tokenStack with
  | nil =>
    rw [hs] at hi
    simp only at hi ⊢
    rcases getD_setEmph_true _ _ _ hi with hik | hold
    · exact ⟨f, s.tokenStack, rfl, hik⟩
    · obtain ⟨f', rest', hst, _⟩ := h i hold
      rw [hs] at hst
      exact absurd hst (by simp)
  | cons top rest =>
    rw [hs] at hi
    simp only at hi ⊢
    rcases getD_setEmph_true _ _ _ hi with hik | hold
    · exact ⟨f, top :: rest, rfl, hik⟩
    · obtain ⟨hne, hsold⟩ := getD_setEmph_false _ _ _ hold
      obtain ⟨f', rest', hst, hif⟩ := h i hsold
      rw [hs] at hst
      have : top = f' := (List.cons_eq_cons.mp hst).1
      rw [← this] at hif
      exact absurd hif hne

theorem hlInv_popHighlight (s : HLState) (h : HLInv s) : HLInv (popHighlight s) := by
  intro i hi
  unfold popHighlight at hi ⊢
  cases hs : s.tokenStack with
  | nil =>
    rw [hs] at hi
    exact h i hi
  | cons top rest =>
    rw [hs] at hi
    cases hr : rest with
    | nil =>
      rw [hr] at hi
      simp only at hi
      obtain ⟨hne, hsold⟩ := getD_setEmph_false _ _ _ hi
      obtain ⟨f', rest', hst, hif⟩ := h i hsold
      rw [hs] at hst
      have : top = f' := (List.cons_eq_cons.mp hst).1
      rw [← this] at hif
      exact absurd hif hne
    | cons t2 r2 =>
      rw [hr] at hi
      simp only at hi ⊢
      rcases getD_setEmph_true _ _ _ hi with hik | hold
      · exact ⟨t2, r2, rfl, hik⟩
      · obtain ⟨hne, hsold⟩ := getD_setEmph_false _ _ _ hold
        obtain ⟨f', rest', hst, hif⟩ := h i hsold
        rw [hs] at hst
        have : top = f' := (List.cons_eq_cons.mp hst).1
        rw [← this] at hif
        exact absurd hif hne

theorem hlInv_applyHLOp (s : HLState) (op : HLOp) (h : HLInv s) :
    HLInv (applyHLOp s op) := by
  cases op with
  | clear => exact hlInv_clearHighlights s
  | replace f => exact hlInv_replaceCurrentHighlight s f h
  | push f => exact hlInv_pushHighlight s f h
  | pop => exact hlInv_popHighlight s h
  | nullStepRepoint =>
    intro i hi
    exfalso
    have hemph : (applyHLOp s HLOp.nullStepRepoint).emph = s.emph.map (fun _ => false) := by
      simp only [applyHLOp]
      cases hs : (clearHighlights s).tokenStack <;> simp [clearHighlights]
    rw [hemph, getD_map_false] at hi
    simp at hi
  | endOfTraceRepoint =>
    intro i hi
    exfalso
    have hemph : (applyHLOp s HLOp.endOfTraceRepoint).emph = s.emph.map (fun _ => false) := by
      simp [applyHLOp, clearHighlights]
    rw [hemph, getD_map_false] at hi
    simp at hi

theorem hlInv_runHLOps (ops : List HLOp) :
    ∀ s : HLState, HLInv s → HLInv (runHLOps s ops) := by
  induction ops with
  | nil => intro s h; exact h
  | cons op ops ih =>
    intro s h
    exact ih (applyHLOp s op) (hlInv_applyHLOp s op h)

theorem hlInv_initialHLState (n : Nat) : HLInv (initialHLState n) := by
  intro i hi
  rw [initialHLState] at hi
  rw [List.getD_eq_getElem?_getD, List.getElem?_replicate] at hi
  by_cases hin : i < n <;> simp [hin] at hi

/-- A successful forward scan returns the first matching identifier at
or after the start position. -/
theorem ruleScanGo_spec_forward (toks : List PToken) (target : String) :
    ∀ (fuel : Nat) (pos : Int) (i : Nat),
      ruleScanGo toks target false fuel pos = some i →
      pos ≤ (i : Int) ∧ identMatchB toks target i = true ∧
        ∀ j : Nat, pos ≤ (j : Int) → j < i → identMatchB toks target j = false := by
  intro fuel
  induction fuel with
  | zero => intro pos i h; exact absurd h (by simp [ruleScanGo])
  | succ fuel ih =>
    intro pos i h
    rw [ruleScanGo] at h
    by_cases hb : 0 ≤ pos ∧ pos < (toks.length : Int)
    · rw [dif_pos hb] at h
      have hplen : pos.toNat < toks.length := by omega
      by_cases hc : (toks.get ⟨pos.toNat, by omega⟩).lexeme = ProgramLexeme.Identifier ∧
          (toks.get ⟨pos.toNat, by omega⟩).text = target
      · rw [if_pos hc] at h
        have hip : i = pos.toNat := (Option.some.injEq _ _ ▸ h).symm
        subst hip
        refine ⟨by omega, ?_, ?_⟩
        · rw [identMatchB, List.getElem?_eq_getElem hplen]
          simp only [List.get_eq_getElem] at hc
          simp [hc.1, hc.2]
        · intro j hj1 hj2
          omega
      · rw [if_neg hc] at h
        obtain ⟨h1, h2, h3⟩ := ih (pos + 1) i h
        refine ⟨by omega, h2, ?_⟩
        intro j hj1 hj2
        by_cases hjp : j = pos.toNat
        · subst hjp
          rw [identMatchB, List.getElem?_eq_getElem hplen]
          simp only [List.get_eq_getElem] at hc
          rcases Decidable.not_and_iff_or_not.mp hc with hcl | hct
          · simp only [Bool.and_eq_false_iff, beq_eq_false_iff_ne, ne_eq]
            exact Or.inl hcl
          · simp only [Bool.and_eq_false_iff, beq_eq_false_iff_ne, ne_eq]
            exact Or.inr hct
        · exact h3 j (by omega) hj2
    · rw [dif_neg hb] at h
      exact absurd h (by simp)

/-- A successful backward scan returns the first matching identifier at
or before the start position. -/
theorem ruleScanGo_spec_backward (toks : List PToken) (target : String) :
    ∀ (fuel : Nat) (pos : Int) (i : Nat),
      ruleScanGo toks target true fuel pos = some i →
      (i : Int) ≤ pos ∧ identMatchB toks target i = true ∧
        ∀ j : Nat, (j : Int) ≤ pos → i < j → identMatchB toks target j = false := by
  intro fuel
  induction fuel with
  | zero => intro pos i h; exact absurd h (by simp [ruleScanGo])
  | succ fuel ih =>
    intro pos i h
    rw [ruleScanGo] at h
    by_cases hb : 0 ≤ pos ∧ pos < (toks.length : Int)
    · rw [dif_pos hb] at h
      have hplen : pos.toNat < toks.length := by omega
      by_cases hc : (toks.get ⟨pos.toNat, by omega⟩).lexeme = ProgramLexeme.Identifier ∧
          (toks.get ⟨pos.toNat, by omega⟩).text = target
      · rw [if_pos hc] at h
        have hip : i = pos.toNat := (Option.some.injEq _ _ ▸ h).symm
        subst hip
        refine ⟨by omega, ?_, ?_⟩
        · rw [identMatchB, List.getElem?_eq_getElem hplen]
          simp only [List.get_eq_getElem] at hc
          simp [hc.1, hc.2]
        · intro j hj1 hj2
          omega
      · rw [if_neg hc] at h
        obtain ⟨h1, h2, h3⟩ := ih (pos - 1) i h
        refine ⟨by omega, h2, ?_⟩
        intro j hj1 hj2
        by_cases hjp : j = pos.toNat
        · subst hjp
          rw [identMatchB, List.getElem?_eq_getElem hplen]
          simp only [List.get_eq_getElem] at hc
          rcases Decidable.not_and_iff_or_not.mp hc with hcl | hct
          · simp only [Bool.and_eq_false_iff, beq_eq_false_iff_ne, ne_eq]
            exact Or.inl hcl
          · simp only [Bool.and_eq_false_iff, beq_eq_false_iff_ne, ne_eq]
            exact Or.inr hct
        · exact h3 j (by omega) hj2
    · rw [dif_neg hb] at h
      exact absurd h (by simp)

/-- The `<match>` scan consumes the stream exactly through the matching
`</match>` end element whenever the body holds no invalid token and no
`</match>` of its own. -/
theorem matchScan_consumes (ms : List XmlTok) :
    ∀ (rest : List XmlTok) (acc : List GraphChange),
      (∀ t ∈ ms, (∀ b, t ≠ XmlTok.invalid b) ∧ t ≠ XmlTok.endEl "match") →
      ∃ chs, matchScan (ms ++ XmlTok.endEl "match" :: rest) acc = some (rest, chs) := by
  induction ms with
  | nil =>
    intro rest acc _
    exact ⟨acc, by simp [matchScan]⟩
  | cons t ms ih =>
    intro rest acc hok
    have ht := hok t (List.mem_cons_self t ms)
    have hms : ∀ u ∈ ms, (∀ b, u ≠ XmlTok.invalid b) ∧ u ≠ XmlTok.endEl "match" :=
      fun u hu => hok u (List.mem_cons_of_mem t hu)
    cases t with
    | invalid b => exact absurd rfl (ht.1 b)
    | endEl n =>
      have hn : ¬ (n == "match") = true := by
        intro hcontra
        exact ht.2 (by rw [eq_of_beq hcontra])
      rw [List.cons_append]
      rw [matchScan]
      rw [if_neg hn]
      exact ih rest acc hms
    | startEl n attrs =>
      rw [List.cons_append, matchScan]
      by_cases hn1 : (n == "node") = true
      · rw [if_pos hn1]
        exact ih rest _ hms
      · rw [if_neg hn1]
        by_cases hn2 : (n == "edge") = true
        · rw [if_pos hn2]
          exact ih rest _ hms
        · rw [if_neg hn2]
          exact ih rest acc hms
    | endDoc =>
      rw [List.cons_append]
      rw [show matchScan (XmlTok.endDoc :: (ms ++ XmlTok.endEl "match" :: rest)) acc =
          matchScan (ms ++ XmlTok.endEl "match" :: rest) acc from rfl]
      exact ih rest acc hms
    | other =>
      rw [List.cons_append]
      rw [show matchScan (XmlTok.other :: (ms ++ XmlTok.endEl "match" :: rest)) acc =
          matchScan (ms ++ XmlTok.endEl "match" :: rest) acc from rfl]
      exact ih rest acc hms

/-- A step list that balance-checks from depth `d` empties a context
stack of height `d`. -/
theorem balCheck_foldl (l : List TraceStep) :
    ∀ (d : Nat) (ctx : List TraceStepType), balCheck d l = true →
      ctx.length = d → l.foldl stepCtx ctx = [] := by
  induction l with
  | nil =>
    intro d ctx hb hl
    have : d = 0 := by simpa [balCheck] using hb
    subst this
    simpa using List.length_eq_zero.mp hl
  | cons st l ih =>
    intro d ctx hb hl
    by_cases hty : st.type = TraceStepType.RULE_APPLICATION
    · rw [balCheck, if_pos hty] at hb
      show l.foldl stepCtx (stepCtx ctx st) = []
      rw [stepCtx, if_pos hty]
      exact ih d ctx hb hl
    · by_cases he : st.endOfContext
      · rw [balCheck, if_neg hty, if_pos he, Bool.and_eq_true, decide_eq_true_eq] at hb
        show l.foldl stepCtx (stepCtx ctx st) = []
        rw [stepCtx, if_neg hty, if_pos he]
        refine ih (d - 1) ctx.tail hb.2 ?_
        rw [List.length_tail, hl]
      · rw [balCheck, if_neg hty, if_neg he] at hb
        show l.foldl stepCtx (stepCtx ctx st) = []
        rw [stepCtx, if_neg hty, if_neg he]
        refine ih (d + 1) (st.type :: ctx) hb ?_
        simp [hl]

/-- `goToStart`'s loop is exactly `cursor` backward steps. -/
theorem TraceRunner.goToStart_eq (s : RunnerState) :
    TraceRunner.goToStart s = TraceRunner.runBackwardN s s.currentStep := by
  induction s using TraceRunner.goToStart.induct with
  | case1 s h ih =>
    rw [TraceRunner.goToStart]
    simp only [h, dif_pos]
    rw [ih]
    have hc := TraceRunner.stepBackwardState_currentStep s
    have harith : s.currentStep = ((TraceRunner.stepBackwardState s).currentStep) + 1 := by
      rw [hc]; omega
    conv_rhs => rw [harith]
    rfl
  | case2 s h =>
    rw [TraceRunner.goToStart]
    simp only [h, dif_neg]
    have : s.currentStep = 0 := by omega
    rw [this]
    rfl

/-! ## Claims -/

/-- C1: for every trace (any step list whose rule applications are
applicable to the graph they meet, as recorded tracefiles are),
`goToEnd` followed by `goToStart` leaves the host graph structurally
equal to its state after construction: the same set of node records
(id, label, mark, root flag, position) and edge records (id, endpoints,
label, mark), each forward change undone by its reverse effect applied
in reverse order. -/
theorem C1_goToEnd_goToStart_graph_roundtrip (steps : List TraceStep) (g : Graph)
    (hok : TraceRunner.okRun (TraceRunner.initial steps g) steps.length = true) :
    GraphPerm
      (TraceRunner.goToStart (TraceRunner.goToEnd (TraceRunner.initial steps g))).graph
      g := by
  rw [TraceRunner.goToEnd_eq]
  have h0c : (TraceRunner.initial steps g).currentStep = 0 := rfl
  have h0l : (TraceRunner.initial steps g).traceSteps.length = steps.length := rfl
  rw [h0c, h0l, Nat.sub_zero]
  rw [TraceRunner.goToStart_eq]
  have hXc : (TraceRunner.runForwardN (TraceRunner.initial steps g)
      steps.length).currentStep = steps.length := by
    rw [TraceRunner.runForwardN_currentStep steps.length _ (by rw [h0c, h0l]; omega), h0c]
    omega
  rw [hXc]
  exact TraceRunner.roundtrip steps.length (TraceRunner.initial steps g)
    (by rw [h0c, h0l]; omega) hok

/-- Witness for C1: the S1 tracefile over the input graph `{n1}`. -/
theorem C1_goToEnd_goToStart_graph_roundtrip_witness :
    TraceRunner.okRun (TraceRunner.initial s1Steps s1Graph) s1Steps.length = true ∧
    GraphPerm
      (TraceRunner.goToStart (TraceRunner.goToEnd
        (TraceRunner.initial s1Steps s1Graph))).graph
      s1Graph :=
  ⟨by decide, C1_goToEnd_goToStart_graph_roundtrip s1Steps s1Graph (by decide)⟩

/-- C2 counterexample: running the S2 tracefile (a loop whose first
iteration creates node `x` and whose second iteration's match fails) to
the end leaves node `x` in the graph — the claimed snapshot restore
never happens, so the claim's `x` is absent prediction is false. -/
theorem C2_counterexample_s2_keeps_x :
    ((TraceRunner.goToEnd s2Runner).graph.nodes.map (fun n => n.id)) = ["x"] := by
  rw [TraceRunner.goToEnd_eq]
  decide

/-- C2 amended: `stepForward` over a Rule end-of-context step only pops
one context frame — this revision has no snapshot stack, so the graph
and the step buffer are untouched no matter what precedes the step —
and consequently after `goToEnd` on the S2 tracefile node `x` is still
present. -/
theorem C2_rule_end_only_pops_context (s : RunnerState) (st : TraceStep)
    (hg : s.traceSteps[s.currentStep]? = some st)
    (hty : st.type = TraceStepType.RULE)
    (hend : st.endOfContext = true) :
    TraceRunner.stepForwardState s =
      { s with contextStack := s.contextStack.tail
             , currentStep := s.currentStep + 1 } ∧
    ((TraceRunner.goToEnd s2Runner).graph.nodes.map (fun n => n.id)) = ["x"] := by
  constructor
  · unfold TraceRunner.stepForwardState
    rw [hg]
    simp [hty, hend]
  · rw [TraceRunner.goToEnd_eq]
    decide

/-- Witness for C2's amended statement: a Rule end step at the cursor. -/
theorem C2_rule_end_only_pops_context_witness :
    c2Runner.traceSteps[c2Runner.currentStep]? = some c2Step ∧
    (TraceRunner.stepForwardState c2Runner =
      { c2Runner with contextStack := c2Runner.contextStack.tail
                    , currentStep := c2Runner.currentStep + 1 } ∧
      ((TraceRunner.goToEnd s2Runner).graph.nodes.map (fun n => n.id)) = ["x"]) :=
  ⟨by decide,
    C2_rule_end_only_pops_context c2Runner c2Step (by decide) (by decide) (by decide)⟩

/-- C3: the `success` attribute of a `<match>` element is ignored by
both parsers: line 169 of traceparser.cpp (= line 392 of
tracerunner.cpp) selects RULE_MATCH or RULE_MATCH_FAILED from the
attribute, but the next statement overwrites the step type with
RULE_MATCH unconditionally.  A failed match therefore also parses as
RULE_MATCH, contradicting the claimed iff on its `success="false"`
side. -/
theorem C3_match_type_ignores_success :
    matchStepType "false" = TraceStepType.RULE_MATCH ∧
    matchStepType "true" = TraceStepType.RULE_MATCH ∧
    (TraceParser.parseStep
        { toks := [XmlTok.startEl "match" [("success", "false")], XmlTok.endEl "match"]
        , errored := false, parseComplete := false, unmatchedContextNames := [] }).2.2 =
      some { defaultTraceStep with type := TraceStepType.RULE_MATCH } ∧
    ((TraceRunner.parseStep
        { toks := [XmlTok.startEl "match" [("success", "false")], XmlTok.endEl "match"]
        , errored := false, parseComplete := false, traceSteps := [] }).1.traceSteps.map
      (fun st => st.type)) =
      [TraceStepType.RULE_MATCH, TraceStepType.RULE_MATCH] :=
  ⟨rfl, rfl, by decide, by decide⟩

/-- C4 counterexample: one `TraceRunner::parseStep` call on a `<match>`
element pushes two steps into the buffer, the second a synthetic
end-of-context match step (tracerunner.cpp 365-373), refuting
"contributes exactly one TraceStep ... no corresponding end-of-context
match step is emitted after it" for the runner's inline parser. -/
theorem C4_counterexample_runner_emits_match_end :
    ((TraceRunner.parseStep
        { toks := [XmlTok.startEl "match" [("success", "true")], XmlTok.endEl "match"]
        , errored := false, parseComplete := false, traceSteps := [] }).1.traceSteps.map
      (fun st => (st.type, st.endOfContext))) =
      [(TraceStepType.RULE_MATCH, false), (TraceStepType.RULE_MATCH, true)] := by
  decide

/-- C4 amended: the canonical `TraceParser::parseStep` contributes
exactly one step per `<match>` element — a leaf whose closing tag is
consumed inside the scan, so the stream continues after `</match>` and
no end-of-context match step follows — while the legacy inline parser
in `TraceRunner::parseStep` appends one extra synthetic end-of-context
match step after it. -/
theorem C4_match_step_counts (attrs : List (String × String)) (ms rest : List XmlTok)
    (stack : List String) (steps : List TraceStep)
    (hms : ∀ t ∈ ms, (∀ b, t ≠ XmlTok.invalid b) ∧ t ≠ XmlTok.endEl "match") :
    (∃ chs, TraceParser.parseStep
        { toks := XmlTok.startEl "match" attrs :: (ms ++ XmlTok.endEl "match" :: rest)
        , errored := false, parseComplete := false, unmatchedContextNames := stack } =
      ({ toks := rest, errored := false, parseComplete := false
       , unmatchedContextNames := stack }, true,
        some { defaultTraceStep with
                 type := TraceStepType.RULE_MATCH, graphChanges := chs })) ∧
    (∃ chs, TraceRunner.parseStep
        { toks := XmlTok.startEl "match" attrs :: (ms ++ XmlTok.endEl "match" :: rest)
        , errored := false, parseComplete := false, traceSteps := steps } =
      ({ toks := rest, errored := false, parseComplete := false
       , traceSteps := steps ++
           [{ defaultTraceStep with
                type := TraceStepType.RULE_MATCH, graphChanges := chs },
            { defaultTraceStep with
                type := TraceStepType.RULE_MATCH, endOfContext := true }] }, true)) := by
  obtain ⟨chs, hscan⟩ := matchScan_consumes ms rest [] hms
  constructor
  · refine ⟨chs, ?_⟩
    show TraceParser.parseStepAux _ _ _ _ = _
    simp only [TraceParser.parseStepAux, TraceParser.parseStartElement,
      show stepTypeFromTagName "match" = TraceStepType.RULE_MATCH from rfl, hscan,
      matchStepType]
    simp
  · refine ⟨chs, ?_⟩
    show TraceRunner.parseStepAux _ _ _ _ = _
    simp only [TraceRunner.parseStepAux, TraceRunner.parseStartElement,
      show stepTypeFromXML "match" = TraceStepType.RULE_MATCH from rfl, hscan,
      matchStepType]
    simp

/-- Witness for C4's amended statement: a failed match with one
morphism node. -/
theorem C4_match_step_counts_witness :
    (∀ t ∈ [XmlTok.startEl "node" [("id", "n1")], XmlTok.endEl "node"],
      (∀ b, t ≠ XmlTok.invalid b) ∧ t ≠ XmlTok.endEl "match") ∧
    ((∃ chs, TraceParser.parseStep
        { toks := XmlTok.startEl "match" [("success", "false")] ::
            ([XmlTok.startEl "node" [("id", "n1")], XmlTok.endEl "node"] ++
              XmlTok.endEl "match" :: [])
        , errored := false, parseComplete := false, unmatchedContextNames := [] } =
      ({ toks := [], errored := false, parseComplete := false
       , unmatchedContextNames := [] }, true,
        some { defaultTraceStep with
                 type := TraceStepType.RULE_MATCH, graphChanges := chs })) ∧
    (∃ chs, TraceRunner.parseStep
        { toks := XmlTok.startEl "match" [("success", "false")] ::
            ([XmlTok.startEl "node" [("id", "n1")], XmlTok.endEl "node"] ++
              XmlTok.endEl "match" :: [])
        , errored := false, parseComplete := false, traceSteps := [] } =
      ({ toks := [], errored := false, parseComplete := false
       , traceSteps := [] ++
           [{ defaultTraceStep with
                type := TraceStepType.RULE_MATCH, graphChanges := chs },
            { defaultTraceStep with
                type := TraceStepType.RULE_MATCH, endOfContext := true }] }, true))) :=
  ⟨by decide, C4_match_step_counts [("success", "false")]
    [XmlTok.startEl "node" [("id", "n1")], XmlTok.endEl "node"] [] [] [] (by decide)⟩

/-- C5 counterexample: the tracefile `<trace><skip/></trace>` parses to
a single Skip step; `stepForward` pushes its kind and no end-of-context
step ever pops it, so after stepping through the whole trace (cursor =
number of steps) the context stack is `[SKIP]`, not empty. -/
theorem C5_counterexample_skip_leaves_frame :
    (TraceRunner.goToEnd skipRunner).currentStep = skipRunner.traceSteps.length ∧
    (TraceRunner.goToEnd skipRunner).contextStack = [TraceStepType.SKIP] := by
  rw [TraceRunner.goToEnd_eq]
  exact ⟨rfl, rfl⟩

/-- C5 amended: the context stack is empty at cursor 0, and it is empty
again after stepping forward through the whole trace provided the step
list is push/pop balanced — which holds exactly when every pushed frame
(including the runner's synthetic match ends) is popped by a later
end-of-context step; leaf steps (Skip, Break, Fail) are pushed but never
popped, so traces containing them end with their frames left on the
stack. -/
theorem C5_context_balance_for_balanced_traces (steps : List TraceStep) (g : Graph)
    (hbal : balCheck 0 steps = true) :
    (TraceRunner.initial steps g).contextStack = [] ∧
    (TraceRunner.goToEnd (TraceRunner.initial steps g)).contextStack = [] := by
  refine ⟨rfl, ?_⟩
  rw [TraceRunner.goToEnd_eq]
  have h0c : (TraceRunner.initial steps g).currentStep = 0 := rfl
  have h0l : (TraceRunner.initial steps g).traceSteps.length = steps.length := rfl
  rw [h0c, h0l, Nat.sub_zero]
  rw [TraceRunner.runForwardN_contextStack steps.length _ (by rw [h0c, h0l]; omega)]
  rw [h0c]
  have hwin : ((TraceRunner.initial steps g).traceSteps.drop 0).take steps.length =
      steps := by
    rw [List.drop_zero]
    exact List.take_length steps
  rw [hwin]
  exact balCheck_foldl steps 0 [] hbal rfl

/-- Witness for C5's amended statement: the S2 trace is balanced. -/
theorem C5_context_balance_for_balanced_traces_witness :
    balCheck 0 s2Runner.traceSteps = true ∧
    ((TraceRunner.initial s2Runner.traceSteps emptyGraph).contextStack = [] ∧
      (TraceRunner.goToEnd
        (TraceRunner.initial s2Runner.traceSteps emptyGraph)).contextStack = []) :=
  ⟨by decide, C5_context_balance_for_balanced_traces s2Runner.traceSteps emptyGraph
    (by decide)⟩

/-- C6: starting from the constructor's cleared state, after any
sequence of the emphasis operations used by the highlighter and the
runner (which are the only writes to the emphasise flags in either
file), at most one token is emphasised, and when the token stack is
non-empty any emphasised token is the one referenced by the top
frame. -/
theorem C6_at_most_one_highlight (n : Nat) (ops : List HLOp) :
    (∀ i j : Nat, emphAt (runHLOps (initialHLState n) ops) i = true →
      emphAt (runHLOps (initialHLState n) ops) j = true → i = j) ∧
    ∀ (f : TokenReference) (rest : List TokenReference),
      (runHLOps (initialHLState n) ops).tokenStack = f :: rest →
      ∀ i : Nat, emphAt (runHLOps (initialHLState n) ops) i = true → i = f.tok := by
  have hinv := hlInv_runHLOps ops (initialHLState n) (hlInv_initialHLState n)
  constructor
  · intro i j hi hj
    obtain ⟨f1, r1, hst1, hif1⟩ := hinv i hi
    obtain ⟨f2, r2, hst2, hif2⟩ := hinv j hj
    rw [hst1] at hst2
    have hf : f1 = f2 := (List.cons_eq_cons.mp hst2).1
    rw [hif1, hif2, hf]
  · intro f rest hst i hi
    obtain ⟨f1, r1, hst1, hif1⟩ := hinv i hi
    rw [hst] at hst1
    have hf : f = f1 := (List.cons_eq_cons.mp hst1).1
    rw [hif1, hf]

/-- Witness for C6: one replace operation on a one-token program. -/
theorem C6_at_most_one_highlight_witness :
    emphAt (runHLOps (initialHLState 1) [HLOp.replace { tok := 0, index := 0 }]) 0 =
      true ∧
    (runHLOps (initialHLState 1)
        [HLOp.replace { tok := 0, index := 0 }]).tokenStack =
      ({ tok := 0, index := 0 } : TokenReference) :: [] ∧
    (0 : Nat) = ({ tok := 0, index := 0 } : TokenReference).tok :=
  ⟨by decide, by decide,
    (C6_at_most_one_highlight 1 [HLOp.replace { tok := 0, index := 0 }]).2
      { tok := 0, index := 0 } [] (by decide) 0 (by decide)⟩

/-- C7: an Invalid reader token whose error is
PrematureEndOfDocumentError makes `parseStep` set the parse-complete
flag and return success without producing a step, in both parsers; any
other Invalid token makes `parseStep` return failure. -/
theorem C7_premature_end_is_normal_end :
    ∀ (rest : List XmlTok) (stack : List String) (steps : List TraceStep),
      (TraceParser.parseStep
          { toks := XmlTok.invalid true :: rest, errored := false
          , parseComplete := false, unmatchedContextNames := stack } =
        ({ toks := rest, errored := true, parseComplete := true
         , unmatchedContextNames := stack }, true, none)) ∧
      (TraceParser.parseStep
          { toks := XmlTok.invalid false :: rest, errored := false
          , parseComplete := false, unmatchedContextNames := stack } =
        ({ toks := rest, errored := true, parseComplete := false
         , unmatchedContextNames := stack }, false, none)) ∧
      (TraceRunner.parseStep
          { toks := XmlTok.invalid true :: rest, errored := false
          , parseComplete := false, traceSteps := steps } =
        ({ toks := rest, errored := true, parseComplete := true
         , traceSteps := steps }, true)) ∧
      (TraceRunner.parseStep
          { toks := XmlTok.invalid false :: rest, errored := false
          , parseComplete := false, traceSteps := steps } =
        ({ toks := rest, errored := true, parseComplete := false
         , traceSteps := steps }, false)) := by
  intro rest stack steps
  exact ⟨rfl, rfl, rfl, rfl⟩

/-- C8 counterexample: calling `stepForward` at the end of the trace
(or `stepBackward` at the start) does not return false with an error
string — it fails the `Q_ASSERT` sanity check, modelled as a fault. -/
theorem C8_counterexample_boundary_asserts :
    TraceRunner.stepForwardChecked (TraceRunner.goToEnd skipRunner) =
      Except.error RunnerFault.assertionFailure ∧
    TraceRunner.stepBackwardChecked skipRunner =
      Except.error RunnerFault.assertionFailure := by
  rw [TraceRunner.goToEnd_eq]
  exact ⟨rfl, rfl⟩

/-- C8 amended: `stepForward` and `stepBackward` return a boolean, but
the boundary condition is not reported through it — `stepForward`
returns false only on a mid-trace parse failure, `stepBackward` always
returns true, and neither sets an error string (this revision has
none).  Called when the corresponding availability check is false they
fail the entry `Q_ASSERT` (tracerunner.cpp 118, 154: aborting a debug
build, reading out of bounds in release); no graceful
return-false-with-message occurs. -/
theorem C8_boundary_fails_assertion (s : RunnerState) :
    (TraceRunner.isForwardStepAvailable s = false →
      TraceRunner.stepForwardChecked s = Except.error RunnerFault.assertionFailure) ∧
    (TraceRunner.isBackwardStepAvailable s = false →
      TraceRunner.stepBackwardChecked s = Except.error RunnerFault.assertionFailure) := by
  constructor
  · intro h
    unfold TraceRunner.stepForwardChecked
    rw [h]
    rfl
  · intro h
    unfold TraceRunner.stepBackwardChecked
    rw [h]
    rfl

/-- Witness for C8's amended statement: the empty-trace runner has
neither step available. -/
theorem C8_boundary_fails_assertion_witness :
    TraceRunner.isForwardStepAvailable (TraceRunner.initial [] emptyGraph) = false ∧
    TraceRunner.isBackwardStepAvailable (TraceRunner.initial [] emptyGraph) = false ∧
    TraceRunner.stepForwardChecked (TraceRunner.initial [] emptyGraph) =
      Except.error RunnerFault.assertionFailure ∧
    TraceRunner.stepBackwardChecked (TraceRunner.initial [] emptyGraph) =
      Except.error RunnerFault.assertionFailure :=
  ⟨by decide, by decide,
    (C8_boundary_fails_assertion (TraceRunner.initial [] emptyGraph)).1 (by decide),
    (C8_boundary_fails_assertion (TraceRunner.initial [] emptyGraph)).2 (by decide)⟩

/-- C9 counterexample: for the context name `a_Main_b` the code removes
the inner occurrence of `Main_` (QString::remove removes every
occurrence) and highlights the `a_b` identifier, whereas the claim's
front-marker stripping leaves `a_Main_b` and would move no highlight —
the two updates differ on this input. -/
theorem C9_counterexample_inner_occurrence :
    TraceHighlighter.ruleUpdate c9Toks (initialHLState 1) c9Step false ≠
      TraceHighlighter.ruleUpdateClaimed c9Toks (initialHLState 1) c9Step false ∧
    emphAt (TraceHighlighter.ruleUpdate c9Toks (initialHLState 1) c9Step false) 0 =
      true ∧
    removeMainOccurrences "a_Main_b" = "a_b" ∧
    claimStripMainAtFront "a_Main_b" = "a_Main_b" :=
  ⟨by decide, by decide, by decide, by decide⟩

/-- C9 amended: on forward entry or backward exit of a Rule step (and
only then), the highlighter removes every occurrence of `Main_` from
the step's context name and replaces the current highlight with the
first `Identifier` token, scanning in the motion direction from the
current position, whose text equals the cleaned name. -/
theorem C9_rule_highlight_first_identifier (toks : List PToken) (s : HLState)
    (step : TraceStep) (bw : Bool) :
    (((¬ bw ∧ step.endOfContext) ∨ (bw ∧ ¬ step.endOfContext)) →
      TraceHighlighter.ruleUpdate toks s step bw = s) ∧
    (¬ ((¬ bw ∧ step.endOfContext) ∨ (bw ∧ ¬ step.endOfContext)) →
      ∀ i : Nat,
        ruleScan toks (removeMainOccurrences step.contextName) bw
          (searchStartIndex s.tokenStack bw toks.length) = some i →
        TraceHighlighter.ruleUpdate toks s step bw =
          replaceCurrentHighlight s { tok := i, index := (i : Int) } ∧
        identMatchB toks (removeMainOccurrences step.contextName) i = true ∧
        (bw = false →
          searchStartIndex s.tokenStack bw toks.length ≤ (i : Int) ∧
          ∀ j : Nat, searchStartIndex s.tokenStack bw toks.length ≤ (j : Int) →
            j < i →
            identMatchB toks (removeMainOccurrences step.contextName) j = false) ∧
        (bw = true →
          (i : Int) ≤ searchStartIndex s.tokenStack bw toks.length ∧
          ∀ j : Nat, (j : Int) ≤ searchStartIndex s.tokenStack bw toks.length →
            i < j →
            identMatchB toks (removeMainOccurrences step.contextName) j = false)) := by
  constructor
  · intro hskip
    unfold TraceHighlighter.ruleUpdate
    rw [if_pos hskip]
  · intro hskip i hfound
    refine ⟨?_, ?_, ?_, ?_⟩
    · unfold TraceHighlighter.ruleUpdate
      rw [if_neg hskip]
      simp only [hfound]
    · cases bw with
      | false =>
        exact (ruleScanGo_spec_forward toks _ (toks.length + 1) _ i hfound).2.1
      | true =>
        exact (ruleScanGo_spec_backward toks _ (toks.length + 1) _ i hfound).2.1
    · intro hbw
      subst hbw
      have hspec := ruleScanGo_spec_forward toks _ (toks.length + 1) _ i hfound
      exact ⟨hspec.1, hspec.2.2⟩
    · intro hbw
      subst hbw
      have hspec := ruleScanGo_spec_backward toks _ (toks.length + 1) _ i hfound
      exact ⟨hspec.1, hspec.2.2⟩

/-- Witness for C9's amended statement: forward entry of rule `Main_r`
over the one-identifier program `r`. -/
theorem C9_rule_highlight_first_identifier_witness :
    ¬ ((¬ false ∧ c9FwdStep.endOfContext) ∨ (false ∧ ¬ c9FwdStep.endOfContext)) ∧
    ruleScan [{ lexeme := ProgramLexeme.Identifier, text := "r" }]
      (removeMainOccurrences c9FwdStep.contextName) false
      (searchStartIndex (initialHLState 1).tokenStack false 1) = some 0 ∧
    TraceHighlighter.ruleUpdate [{ lexeme := ProgramLexeme.Identifier, text := "r" }]
      (initialHLState 1) c9FwdStep false =
      replaceCurrentHighlight (initialHLState 1) { tok := 0, index := (0 : Int) } :=
  ⟨by decide, by decide,
    ((C9_rule_highlight_first_identifier
        [{ lexeme := ProgramLexeme.Identifier, text := "r" }] (initialHLState 1)
        c9FwdStep false).2 (by decide) 0 (by decide)).1⟩

/-- C10: the host graph is mutated only when stepping over a
RULE_APPLICATION step: the apply and revert routines return with no
effect on a step of any other kind (including the runner state's step
buffer), and `stepForward` / `stepBackward` leave the graph — every
node and edge — unchanged there. -/
theorem C10_graph_mutated_only_by_rule_application (s : RunnerState) (st : TraceStep) :
    (s.traceSteps[s.currentStep]? = some st →
      st.type ≠ TraceStepType.RULE_APPLICATION →
      TraceRunner.applyCurrentStepChanges s = s ∧
      TraceRunner.revertCurrentStepChanges s = s ∧
      (TraceRunner.stepForwardState s).graph = s.graph) ∧
    (s.traceSteps[s.currentStep - 1]? = some st →
      st.type ≠ TraceStepType.RULE_APPLICATION →
      (TraceRunner.stepBackwardState s).graph = s.graph) := by
  constructor
  · intro hg hty
    refine ⟨?_, ?_, (TraceRunner.stepForwardState_nonapply s st hg hty).1⟩
    · unfold TraceRunner.applyCurrentStepChanges
      simp [hg, hty]
    · unfold TraceRunner.revertCurrentStepChanges
      simp [hg, hty]
  · intro hg hty
    exact TraceRunner.stepBackwardState_graph_nonapply s st hg hty

/-- Witness for C10: the runner over the skip trace, whose only step is
a Skip. -/
theorem C10_graph_mutated_only_by_rule_application_witness :
    skipRunner.traceSteps[skipRunner.currentStep]? =
      some { defaultTraceStep with type := TraceStepType.SKIP } ∧
    ({ defaultTraceStep with type := TraceStepType.SKIP } : TraceStep).type ≠
      TraceStepType.RULE_APPLICATION ∧
    TraceRunner.applyCurrentStepChanges skipRunner = skipRunner ∧
    (TraceRunner.stepForwardState skipRunner).graph = skipRunner.graph ∧
    (TraceRunner.stepBackwardState skipRunner).graph = skipRunner.graph :=
  ⟨by decide, by decide,
    ((C10_graph_mutated_only_by_rule_application skipRunner
        { defaultTraceStep with type := TraceStepType.SKIP }).1
      (by decide) (by decide)).1,
    ((C10_graph_mutated_only_by_rule_application skipRunner
        { defaultTraceStep with type := TraceStepType.SKIP }).1
      (by decide) (by decide)).2.2,
    (C10_graph_mutated_only_by_rule_application skipRunner
        { defaultTraceStep with type := TraceStepType.SKIP }).2
      (by decide) (by decide)⟩

end GP2
